import Mathlib

/-!
Shallow embedding of the dependency-graph engine in `src/core/dep-graph.ts`
(class `DepGraphImpl`), together with proofs about its query surface: path
enumeration and counting to the root, cycle detection, structural equality,
and the lookup accessors.

Modelling conventions:
* JS strings are `String`; string maps and sets are association lists in
  insertion order (a JS object cannot hold a duplicate key).
* The graphlib graph is a node-label list plus a directed edge list;
  `successors`/`predecessors` return `none` exactly when the queried node is
  absent, mirroring graphlib returning `undefined`.
* Thrown JS errors become `Except Err`; each `Error` message kind of the
  source gets its own constructor, and the `TypeError` raised by iterating
  `undefined` is `Err.typeError`.
* The unbounded recursions of the source (upward path walks and the equality
  co-traversal) take an explicit fuel argument; running out of fuel is the
  embedding artifact `Err.fuelExhausted`, proved unreachable on valid inputs
  for the fuel amounts the public wrappers pass.
* The two instance-scoped memo caches of the source (cycle flag, per-node
  path counts) are write-once caches over an immutable graph, hence
  semantically transparent; the embedding computes the cached values directly.
-/

namespace DepGraphTs

instance {ε α : Type} [DecidableEq ε] [DecidableEq α] : DecidableEq (Except ε α)
  | .ok a, .ok b =>
    if h : a = b then .isTrue (by rw [h]) else .isFalse (by intro c; cases c; exact h rfl)
  | .error a, .error b =>
    if h : a = b then .isTrue (by rw [h]) else .isFalse (by intro c; cases c; exact h rfl)
  | .ok _, .error _ => .isFalse (by intro c; cases c)
  | .error _, .ok _ => .isFalse (by intro c; cases c)

/-- Package identity (`types.Pkg`): a name and an optional version. -/
structure Pkg where
  name : String
  version : Option String
deriving DecidableEq, Repr

/-- Per-occurrence node information (`types.NodeInfo`), modelled as a flat list
of label pairs; lodash `isEqual` on it is structural equality, and the empty
object is `[]`. -/
abbrev NodeInfo : Type := List (String × String)

/-- The label graphlib stores for a node id (interface `GraphNode` of the
source): the package id plus optional node info. -/
structure GraphNode where
  pkgId : String
  info : Option NodeInfo
deriving DecidableEq

/-- Node view returned by the public accessors (`types.Node`). The `pkg` field
holds the registry object, which in JS is `undefined` when the registry lacks
the key, hence `Option`; the `info` field is always an object (the source
substitutes `{}`). -/
structure Node where
  id : String
  info : NodeInfo
  pkg : Option Pkg
deriving DecidableEq

/-- Error kinds thrown by `DepGraphImpl` methods. `unknownNode` is
`no such node`, `unknownPackage` is `no such pkg`, `cyclicGraphUnsupported` is
`does not support cyclic graphs yet`, and `typeError` is the JS `TypeError`
raised by `Array.from(undefined)`. `fuelExhausted` is an artifact of the
fueled embedding only. -/
inductive Err where
  | unknownNode (id : String)
  | unknownPackage (pkgId : String)
  | cyclicGraphUnsupported
  | typeError
  | fuelExhausted
deriving DecidableEq

/-- The state of a constructed `DepGraphImpl`: the graphlib graph (node labels
and directed edges), the designated root node id, the package registry
`_pkgs`, and the occurrence index `_pkgNodes`. -/
structure DepGraphImpl where
  nodes : List (String × GraphNode)
  edges : List (String × String)
  rootNodeId : String
  pkgs : List (String × Pkg)
  pkgNodes : List (String × List String)
deriving DecidableEq

/-- `DepGraphImpl.getPkgId`: the canonical `name@version` key; a missing (or
empty, via JS truthiness) version contributes the empty string. -/
def getPkgId (pkg : Pkg) : String :=
  pkg.name ++ "@" ++ pkg.version.getD ""

/-- The node ids present in the graphlib graph. -/
def nodeIds (g : DepGraphImpl) : List String :=
  g.nodes.map (·.1)

/-- graphlib `graph.node(id)`: the stored label, or `undefined`. -/
def graphNode? (g : DepGraphImpl) (id : String) : Option GraphNode :=
  (g.nodes.find? (fun n => n.1 = id)).map (·.2)

/-- graphlib `graph.successors(id)`: `undefined` when the node is absent, else
the targets of the outgoing edges in insertion order. -/
def successors (g : DepGraphImpl) (id : String) : Option (List String) :=
  if id ∈ nodeIds g then some ((g.edges.filter (fun e => e.1 = id)).map (·.2)) else none

/-- graphlib `graph.predecessors(id)`: `undefined` when the node is absent,
else the sources of the incoming edges in insertion order. -/
def predecessors (g : DepGraphImpl) (id : String) : Option (List String) :=
  if id ∈ nodeIds g then some ((g.edges.filter (fun e => e.2 = id)).map (·.1)) else none

/-- Registry lookup `this._pkgs[pkgId]`. -/
def lookupPkg (g : DepGraphImpl) (pkgId : String) : Option Pkg :=
  (g.pkgs.find? (fun e => e.1 = pkgId)).map (·.2)

/-- Occurrence index lookup `this._pkgNodes[pkgId]`. -/
def lookupPkgNodes (g : DepGraphImpl) (pkgId : String) : Option (List String) :=
  (g.pkgNodes.find? (fun e => e.1 = pkgId)).map (·.2)

/-- Constructor line `this._rootPkgId = (graph.node(rootNodeId) as GraphNode).pkgId`;
the cast crashes on an invalid instance, modelled by a default. -/
def rootPkgId (g : DepGraphImpl) : String :=
  match graphNode? g g.rootNodeId with
  | some n => n.pkgId
  | none => ""

/-- Getter `rootPkg`: the registry entry of the root package id. -/
def rootPkg? (g : DepGraphImpl) : Option Pkg :=
  lookupPkg g (rootPkgId g)

/-- `getPkgs()`: the registry values (`_.values(pkgs)` in insertion order). -/
def getPkgs (g : DepGraphImpl) : List Pkg :=
  g.pkgs.map (·.2)

/-- `getDepPkgs()`: `_pkgList.filter((pkg) => pkg !== this.rootPkg)`. Each
registry key holds its own object, so the JS reference comparison against the
object found at the root package id removes exactly the entry stored under
that key; when the root package id is absent the comparison against
`undefined` keeps everything. -/
def getDepPkgs (g : DepGraphImpl) : List Pkg :=
  match g.pkgs.find? (fun e => e.1 = rootPkgId g) with
  | none => g.pkgs.map (·.2)
  | some re => (g.pkgs.filter (fun e => ¬(e.1 = re.1))).map (·.2)

/-- Error-propagating map over a list, the model of a JS `for` loop that
pushes one result per element and lets a thrown error escape. -/
def exceptMapList {α β : Type} (f : α → Except Err β) : List α → Except Err (List β)
  | [] => .ok []
  | x :: xs =>
    match f x with
    | .error e => .error e
    | .ok y =>
      match exceptMapList f xs with
      | .error e => .error e
      | .ok ys => .ok (y :: ys)

/-- Error-propagating accumulation of numbers over a list, the model of a JS
`for` loop or `reduce` that adds one summand per element. -/
def exceptSumList {α : Type} (f : α → Except Err Nat) : Nat → List α → Except Err Nat
  | acc, [] => .ok acc
  | acc, x :: xs =>
    match f x with
    | .error e => .error e
    | .ok c => exceptSumList f (acc + c) xs

/-- Private `getGraphNode(nodeId)`: throws `no such node` when absent. -/
def getGraphNode (g : DepGraphImpl) (nodeId : String) : Except Err GraphNode :=
  match graphNode? g nodeId with
  | some n => .ok n
  | none => .error (.unknownNode nodeId)

/-- `getNodePkg(nodeId)`: registry value of the node package id; throws only
when the node itself is absent (a missing registry entry yields `undefined`). -/
def getNodePkg (g : DepGraphImpl) (nodeId : String) : Except Err (Option Pkg) :=
  (getGraphNode g nodeId).map (fun n => lookupPkg g n.pkgId)

/-- `getNode(nodeId)`: the public node view; `info` falls back to `{}`. -/
def getNode (g : DepGraphImpl) (nodeId : String) : Except Err Node :=
  (getGraphNode g nodeId).map (fun n =>
    { id := nodeId, info := n.info.getD [], pkg := lookupPkg g n.pkgId })

/-- `getPkgNodeIds(pkg)`: throws `no such pkg` when the package id is not in
the registry; then reads the occurrence index (`Array.from` of an absent entry
raises a `TypeError`). -/
def getPkgNodeIds (g : DepGraphImpl) (pkg : Pkg) : Except Err (List String) :=
  let pkgId := getPkgId pkg
  if (lookupPkg g pkgId).isNone then .error (.unknownPackage pkgId)
  else
    match lookupPkgNodes g pkgId with
    | some ids => .ok ids
    | none => .error .typeError

/-- `getNodeDepsNodeIds(nodeId)`: graphlib successors, `no such node` when the
result is `undefined`. -/
def getNodeDepsNodeIds (g : DepGraphImpl) (nodeId : String) : Except Err (List String) :=
  match successors g nodeId with
  | some deps => .ok deps
  | none => .error (.unknownNode nodeId)

/-- `getNodeParentsNodeIds(nodeId)`: graphlib predecessors, `no such node`
when the result is `undefined`. -/
def getNodeParentsNodeIds (g : DepGraphImpl) (nodeId : String) : Except Err (List String) :=
  match predecessors g nodeId with
  | some parents => .ok parents
  | none => .error (.unknownNode nodeId)

/-- `getNodeDeps(nodeId)`: one node view per direct dependency. -/
def getNodeDeps (g : DepGraphImpl) (nodeId : String) : Except Err (List Node) :=
  match getNodeDepsNodeIds g nodeId with
  | .error e => .error e
  | .ok depsNodeIds =>
    exceptMapList (fun depNodeId =>
      (getGraphNode g depNodeId).map (fun n =>
        { id := depNodeId, info := n.info.getD [], pkg := lookupPkg g n.pkgId })) depsNodeIds

/-- `getPkgNodes(pkg)`: iterates `this._pkgNodes[pkgId]` without a registry
check, so an absent index entry raises a `TypeError`; every produced view
carries the (possibly `undefined`) registry object `pkgInfo`. -/
def getPkgNodes (g : DepGraphImpl) (pkg : Pkg) : Except Err (List Node) :=
  let pkgId := getPkgId pkg
  let pkgInfo := lookupPkg g pkgId
  match lookupPkgNodes g pkgId with
  | none => .error .typeError
  | some ids =>
    exceptMapList (fun nodeId =>
      (getGraphNode g nodeId).map (fun n =>
        { id := nodeId, info := n.info.getD [], pkg := pkgInfo })) ids

/-- One source-elimination pass list for the acyclicity check: the rounds of
nodes removed by repeatedly deleting the nodes with no incoming edge from the
remaining set. Returns `none` when a nonempty remainder has no source, which
happens exactly when a directed cycle survives. Stands in for
`graphlib.alg.isAcyclic` (topological-sort based cycle detection). -/
def peelRounds (edges : List (String × String)) : Nat → List String → Option (List (List String))
  | 0, rem => if rem.isEmpty then some [] else none
  | fuel + 1, rem =>
    if rem.isEmpty then some []
    else
      let sources := rem.filter (fun v => ¬(edges.any (fun e => e.2 = v ∧ e.1 ∈ rem)))
      if sources.isEmpty then none
      else (peelRounds edges fuel (rem.filter (fun v => v ∉ sources))).map (sources :: ·)

/-- `hasCycles()`: memoized `!graphlib.alg.isAcyclic(this._graph)`; the memo
cache over the immutable graph is transparent, so the embedding computes the
flag directly. -/
def hasCycles (g : DepGraphImpl) : Bool :=
  (peelRounds g.edges (nodeIds g).length (nodeIds g)).isNone

/-- Private `pathsFromNodeToRoot(nodeId)`, with explicit fuel: a parentless
node yields the single path `[pkg]`; otherwise every parent path is extended
by the package of this node, concatenated over the parents in order. -/
def pathsFromNodeToRoot (g : DepGraphImpl) : Nat → String → Except Err (List (List (Option Pkg)))
  | 0, _ => .error .fuelExhausted
  | fuel + 1, nodeId =>
    match getNodeParentsNodeIds g nodeId with
    | .error e => .error e
    | .ok parentNodesIds =>
      match getNodePkg g nodeId with
      | .error e => .error e
      | .ok pkg =>
        if parentNodesIds.isEmpty then .ok [[pkg]]
        else
          match exceptMapList (fun id =>
              (pathsFromNodeToRoot g fuel id).map (fun paths => paths.map (fun path => pkg :: path)))
              parentNodesIds with
          | .error e => .error e
          | .ok allPaths => .ok allPaths.flatten

/-- Private `countNodePathsToRoot(nodeId)`, with explicit fuel: 1 for a
parentless node, else the sum of the parent counts. The per-node memo cache of
the source is a pure cache over the immutable graph and is not modelled. -/
def countNodePathsToRoot (g : DepGraphImpl) : Nat → String → Except Err Nat
  | 0, _ => .error .fuelExhausted
  | fuel + 1, nodeId =>
    match getNodeParentsNodeIds g nodeId with
    | .error e => .error e
    | .ok parentNodesIds =>
      if parentNodesIds.isEmpty then .ok 1
      else
        exceptSumList (fun parentNodeId => countNodePathsToRoot g fuel parentNodeId) 0 parentNodesIds

/-- Ordering used for the final sort of `pkgPathsToRoot`: the JS comparator
`(a, b) => a.length - b.length`, i.e. ascending path length; the JS sort is
stable, modelled by a stable insertion sort. -/
def lenLe (a b : List (Option Pkg)) : Prop :=
  a.length ≤ b.length

instance : DecidableRel lenLe := fun a b => Nat.decLe a.length b.length

instance : IsTotal (List (Option Pkg)) lenLe :=
  ⟨fun a b => Nat.le_total a.length b.length⟩

instance : IsTrans (List (Option Pkg)) lenLe :=
  ⟨fun _ _ _ hab hbc => Nat.le_trans hab hbc⟩

/-- The fuel the public wrappers pass to the fueled recursions: one more than
the node count, enough for every repeat-free upward walk. -/
def nodeFuel (g : DepGraphImpl) : Nat :=
  g.nodes.length + 1

/-- `pkgPathsToRoot(pkg)`: rejects cyclic graphs, then concatenates the upward
paths of every occurrence of the package and sorts ascending by path length. -/
def pkgPathsToRoot (g : DepGraphImpl) (pkg : Pkg) : Except Err (List (List (Option Pkg))) :=
  if hasCycles g then .error .cyclicGraphUnsupported
  else
    match getPkgNodeIds g pkg with
    | .error e => .error e
    | .ok ids =>
      match exceptMapList (fun id => pathsFromNodeToRoot g (nodeFuel g) id) ids with
      | .error e => .error e
      | .ok pathss => .ok (List.insertionSort lenLe pathss.flatten)

/-- `countPathsToRoot(pkg)`: rejects cyclic graphs, then sums the per-node
path counts over the occurrences of the package. -/
def countPathsToRoot (g : DepGraphImpl) (pkg : Pkg) : Except Err Nat :=
  if hasCycles g then .error .cyclicGraphUnsupported
  else
    match getPkgNodeIds g pkg with
    | .error e => .error e
    | .ok ids =>
      exceptSumList (fun nodeId => countNodePathsToRoot g (nodeFuel g) nodeId) 0 ids

/-- Kernel-reducible lexicographic comparison of character lists, standing in
for the JS string comparison used by `localeCompare` on the package ids. -/
def charsLe : List Char → List Char → Bool
  | [], _ => true
  | _ :: _, [] => false
  | a :: as, b :: bs => if a = b then charsLe as bs else decide (a < b)

/-- String order for the `sortFn` comparator of `nodeEquals`. -/
def strLe (a b : String) : Prop :=
  charsLe a.data b.data = true

instance : DecidableRel strLe := fun a b => instDecidableEqBool (charsLe a.data b.data) true

instance : IsTotal String strLe := by
  constructor
  intro a b
  show charsLe a.data b.data = true ∨ charsLe b.data a.data = true
  generalize a.data = xs
  generalize b.data = ys
  induction xs generalizing ys with
  | nil => exact .inl rfl
  | cons x xt ih =>
    cases ys with
    | nil => exact .inr rfl
    | cons y yt =>
      by_cases hxy : x = y
      · subst hxy
        simpa [charsLe] using ih yt
      · rcases lt_trichotomy x y with h | h | h
        · exact .inl (by simp [charsLe, hxy, h])
        · exact absurd h hxy
        · have hyx : ¬(y = x) := fun c => hxy c.symm
          exact .inr (by simp [charsLe, hyx, h])

/-- Sort key of the `sortFn` comparator: `getPkgId(graph.getNode(id).pkg)`.
On a valid instance the lookups succeed; the defaults are never reached there. -/
def sortKey (g : DepGraphImpl) (id : String) : String :=
  match graphNode? g id with
  | none => ""
  | some n =>
    match lookupPkg g n.pkgId with
    | none => ""
    | some pkg => getPkgId pkg

/-- Comparison of two dependency node ids of one graph by package id string,
the `sortFn(graph)` comparator of `nodeEquals`. -/
def depIdLe (g : DepGraphImpl) (idA idB : String) : Prop :=
  strLe (sortKey g idA) (sortKey g idB)

instance (g : DepGraphImpl) : DecidableRel (depIdLe g) :=
  fun a b => inferInstanceAs (Decidable (strLe (sortKey g a) (sortKey g b)))

/-- The key of a visited pair in the `traversedPairs` set:
`` `${depsA[i]}_${depsB[i]}` ``. -/
def pairKey (idA idB : String) : String :=
  idA ++ "_" ++ idB

/-- Private `nodeEquals`, with explicit fuel. The mutable `traversedPairs` set
shared by the recursion is threaded through as a list in insertion order and
returned next to the boolean. The per-pair steps follow the source: optional
root skip, package and info comparison, dependency cardinality check,
independent stable sorts by package id, pairwise recursion with the
already-visited pairs skipped. -/
def nodeEquals (gA gB : DepGraphImpl) (compareRoot : Bool) :
    Nat → String → String → List String → Except Err (Bool × List String)
  | 0, _, _, _ => .error .fuelExhausted
  | fuel + 1, nodeIdA, nodeIdB, traversed =>
    let cmpStep : Except Err Bool :=
      if compareRoot = true ∨ (nodeIdA ≠ gA.rootNodeId ∧ nodeIdB ≠ gB.rootNodeId) then
        match getNode gA nodeIdA with
        | .error e => .error e
        | .ok nodeA =>
          match getNode gB nodeIdB with
          | .error e => .error e
          | .ok nodeB => .ok (decide (nodeA.pkg = nodeB.pkg) && decide (nodeA.info = nodeB.info))
      else .ok true
    match cmpStep with
    | .error e => .error e
    | .ok false => .ok (false, traversed)
    | .ok true =>
      match getNodeDeps gA nodeIdA with
      | .error e => .error e
      | .ok depNodesA =>
        match getNodeDeps gB nodeIdB with
        | .error e => .error e
        | .ok depNodesB =>
          let depsA := depNodesA.map (·.id)
          let depsB := depNodesB.map (·.id)
          if depsA.length ≠ depsB.length then .ok (false, traversed)
          else
            let sortedA := List.insertionSort (depIdLe gA) depsA
            let sortedB := List.insertionSort (depIdLe gB) depsB
            (sortedA.zip sortedB).foldlM (fun st p =>
              if st.1 = false then pure st
              else if pairKey p.1 p.2 ∈ st.2 then pure st
              else nodeEquals gA gB compareRoot fuel p.1 p.2 (st.2 ++ [pairKey p.1 p.2]))
              (true, traversed)

/-- The pairwise recursion step of `nodeEquals` over an already-sorted and
zipped dependency list, named so that theorems can refer to it; `nodeEquals`
at positive fuel unfolds to it after the comparison and cardinality steps. -/
def nodeEqualsPairs (gA gB : DepGraphImpl) (compareRoot : Bool) (fuel : Nat)
    (pairs : List (String × String)) (traversed : List String) :
    Except Err (Bool × List String) :=
  pairs.foldlM (fun st p =>
    if st.1 = false then pure st
    else if pairKey p.1 p.2 ∈ st.2 then pure st
    else nodeEquals gA gB compareRoot fuel p.1 p.2 (st.2 ++ [pairKey p.1 p.2]))
    (true, traversed)

/-- The fuel `equals` passes to the co-traversal: one more than the number of
node pairs, enough because every recursive descent records a fresh pair. -/
def equalsFuel (gA gB : DepGraphImpl) : Nat :=
  gA.nodes.length * gB.nodes.length + 1

/-- `equals(other, {compareRoot})` between two native instances: the recursive
co-traversal from the two roots with an empty visited set. -/
def equals (gA gB : DepGraphImpl) (compareRoot : Bool) : Except Err Bool :=
  (nodeEquals gA gB compareRoot (equalsFuel gA gB) gA.rootNodeId gB.rootNodeId []).map (·.1)

/-- Package of a node as seen through the views: graph label then registry. -/
def nodePkgView (g : DepGraphImpl) (id : String) : Option Pkg :=
  (graphNode? g id).bind (fun n => lookupPkg g n.pkgId)

/-- Stored per-node info of a node id, before the `{}` fallback. -/
def storedNodeInfo (g : DepGraphImpl) (id : String) : Option NodeInfo :=
  (graphNode? g id).bind (·.info)

/-- The node view produced for an existing node id: the id, the stored info
with the `{}` fallback, and the registry package object. -/
def nodeView (g : DepGraphImpl) (id : String) : Node :=
  { id := id, info := (storedNodeInfo g id).getD [], pkg := nodePkgView g id }

/-- Upward path family written from the words of the specification: a node
with no parents contributes the single-element path of its package; a node
with parents contributes, for each parent and each path of that parent, its
package followed by that parent path. Used as the comparison definition for
the refinement statements about `pkgPathsToRoot`. -/
def specUpwardPaths (g : DepGraphImpl) : Nat → String → List (List (Option Pkg))
  | 0, _ => []
  | fuel + 1, id =>
    let parents := (predecessors g id).getD []
    if parents.isEmpty then [[nodePkgView g id]]
    else parents.flatMap (fun p => (specUpwardPaths g fuel p).map (fun path => nodePkgView g id :: path))

/-- Package identity in the words of the specification: equal name and equal
version. -/
def samePkg (a b : Pkg) : Prop :=
  a.name = b.name ∧ a.version = b.version

instance (a b : Pkg) : Decidable (samePkg a b) := by
  unfold samePkg
  infer_instance

/-- Variant of the equality co-traversal written from the words of claim C3:
the package and info comparison is skipped only when the current pair is the
two roots (and `compareRoot` is false); all other steps are unchanged. -/
def nodeEqualsRootsOnlySkip (gA gB : DepGraphImpl) (compareRoot : Bool) :
    Nat → String → String → List String → Except Err (Bool × List String)
  | 0, _, _, _ => .error .fuelExhausted
  | fuel + 1, nodeIdA, nodeIdB, traversed =>
    let cmpStep : Except Err Bool :=
      if compareRoot = false ∧ (nodeIdA = gA.rootNodeId ∧ nodeIdB = gB.rootNodeId) then .ok true
      else
        match getNode gA nodeIdA with
        | .error e => .error e
        | .ok nodeA =>
          match getNode gB nodeIdB with
          | .error e => .error e
          | .ok nodeB => .ok (decide (nodeA.pkg = nodeB.pkg) && decide (nodeA.info = nodeB.info))
    match cmpStep with
    | .error e => .error e
    | .ok false => .ok (false, traversed)
    | .ok true =>
      match getNodeDeps gA nodeIdA with
      | .error e => .error e
      | .ok depNodesA =>
        match getNodeDeps gB nodeIdB with
        | .error e => .error e
        | .ok depNodesB =>
          let depsA := depNodesA.map (·.id)
          let depsB := depNodesB.map (·.id)
          if depsA.length ≠ depsB.length then .ok (false, traversed)
          else
            let sortedA := List.insertionSort (depIdLe gA) depsA
            let sortedB := List.insertionSort (depIdLe gB) depsB
            (sortedA.zip sortedB).foldlM (fun st p =>
              if st.1 = false then pure st
              else if pairKey p.1 p.2 ∈ st.2 then pure st
              else nodeEqualsRootsOnlySkip gA gB compareRoot fuel p.1 p.2 (st.2 ++ [pairKey p.1 p.2]))
              (true, traversed)

/-- Wrapper around `nodeEqualsRootsOnlySkip` with the fuel and start of
`equals`, for comparison against the implemented `equals`. -/
def equalsRootsOnlySkip (gA gB : DepGraphImpl) (compareRoot : Bool) : Except Err Bool :=
  (nodeEqualsRootsOnlySkip gA gB compareRoot (equalsFuel gA gB) gA.rootNodeId gB.rootNodeId []).map (·.1)

/-- Skip condition of the implemented comparison step, in the words of the
amended claim: `compareRoot` is false and at least one node of the pair is the
root of its own graph. -/
def skipsComparison (gA gB : DepGraphImpl) (compareRoot : Bool) (nodeIdA nodeIdB : String) : Prop :=
  compareRoot = false ∧ (nodeIdA = gA.rootNodeId ∨ nodeIdB = gB.rootNodeId)

instance (gA gB : DepGraphImpl) (cr : Bool) (a b : String) :
    Decidable (skipsComparison gA gB cr a b) := by
  unfold skipsComparison
  infer_instance

/-- Variant of the equality co-traversal written from the words of the amended
claim C3: the comparison is skipped exactly under `skipsComparison`; all other
steps are unchanged. -/
def nodeEqualsEitherSkip (gA gB : DepGraphImpl) (compareRoot : Bool) :
    Nat → String → String → List String → Except Err (Bool × List String)
  | 0, _, _, _ => .error .fuelExhausted
  | fuel + 1, nodeIdA, nodeIdB, traversed =>
    let cmpStep : Except Err Bool :=
      if skipsComparison gA gB compareRoot nodeIdA nodeIdB then .ok true
      else
        match getNode gA nodeIdA with
        | .error e => .error e
        | .ok nodeA =>
          match getNode gB nodeIdB with
          | .error e => .error e
          | .ok nodeB => .ok (decide (nodeA.pkg = nodeB.pkg) && decide (nodeA.info = nodeB.info))
    match cmpStep with
    | .error e => .error e
    | .ok false => .ok (false, traversed)
    | .ok true =>
      match getNodeDeps gA nodeIdA with
      | .error e => .error e
      | .ok depNodesA =>
        match getNodeDeps gB nodeIdB with
        | .error e => .error e
        | .ok depNodesB =>
          let depsA := depNodesA.map (·.id)
          let depsB := depNodesB.map (·.id)
          if depsA.length ≠ depsB.length then .ok (false, traversed)
          else
            let sortedA := List.insertionSort (depIdLe gA) depsA
            let sortedB := List.insertionSort (depIdLe gB) depsB
            (sortedA.zip sortedB).foldlM (fun st p =>
              if st.1 = false then pure st
              else if pairKey p.1 p.2 ∈ st.2 then pure st
              else nodeEqualsEitherSkip gA gB compareRoot fuel p.1 p.2 (st.2 ++ [pairKey p.1 p.2]))
              (true, traversed)

/-- The structural invariants of a constructed instance (section 3 of the
specification): duplicate-free key spaces and edge list, an existing root,
edges between existing nodes, node package ids resolved by the registry,
registry keys in canonical `name@version` form, the same key space for the
registry and the occurrence index, and occurrence entries naming existing
nodes. -/
def ValidGraph (g : DepGraphImpl) : Prop :=
  (nodeIds g).Nodup ∧
  (g.pkgs.map (·.1)).Nodup ∧
  (g.pkgNodes.map (·.1)).Nodup ∧
  g.edges.Nodup ∧
  g.rootNodeId ∈ nodeIds g ∧
  (∀ e ∈ g.edges, e.1 ∈ nodeIds g ∧ e.2 ∈ nodeIds g) ∧
  (∀ n ∈ g.nodes, n.2.pkgId ∈ g.pkgs.map (·.1)) ∧
  (∀ e ∈ g.pkgs, e.1 = getPkgId e.2) ∧
  (∀ k ∈ g.pkgs.map (·.1), k ∈ g.pkgNodes.map (·.1)) ∧
  (∀ k ∈ g.pkgNodes.map (·.1), k ∈ g.pkgs.map (·.1)) ∧
  (∀ e ∈ g.pkgNodes, ∀ id ∈ e.2, id ∈ nodeIds g)

instance (g : DepGraphImpl) : Decidable (ValidGraph g) := by
  unfold ValidGraph
  infer_instance

/-- All pair keys of node ids of the two graphs; the visited set of the
equality co-traversal only ever holds elements of this list. -/
def pairKeysList (gA gB : DepGraphImpl) : List String :=
  (nodeIds gA).flatMap (fun a => (nodeIds gB).map (fun b => pairKey a b))

/-- Round index in which the source-elimination pass removes a node: the
position of the first round holding it. Ranks increase along edges, which
bounds the depth of every upward walk of an acyclic graph. -/
def rankOf (rounds : List (List String)) (v : String) : Nat :=
  rounds.findIdx (fun r => decide (v ∈ r))

/-- Diamond example of section 8 of the specification: root `a` depends on
`b` and `c`, both of which depend on the same occurrence of `d`. -/
def gDiamond : DepGraphImpl where
  nodes := [("R", ⟨"a@1.0.0", none⟩), ("B", ⟨"b@1.0.0", none⟩),
            ("C", ⟨"c@1.0.0", none⟩), ("D", ⟨"d@1.0.0", none⟩)]
  edges := [("R", "B"), ("R", "C"), ("B", "D"), ("C", "D")]
  rootNodeId := "R"
  pkgs := [("a@1.0.0", ⟨"a", some "1.0.0"⟩), ("b@1.0.0", ⟨"b", some "1.0.0"⟩),
           ("c@1.0.0", ⟨"c", some "1.0.0"⟩), ("d@1.0.0", ⟨"d", some "1.0.0"⟩)]
  pkgNodes := [("a@1.0.0", ["R"]), ("b@1.0.0", ["B"]), ("c@1.0.0", ["C"]), ("d@1.0.0", ["D"])]

/-- A two-node cyclic graph: the root and one dependency pointing back. -/
def gCycle : DepGraphImpl where
  nodes := [("R", ⟨"a@1.0.0", none⟩), ("X", ⟨"x@1.0.0", none⟩)]
  edges := [("R", "X"), ("X", "R")]
  rootNodeId := "R"
  pkgs := [("a@1.0.0", ⟨"a", some "1.0.0"⟩), ("x@1.0.0", ⟨"x", some "1.0.0"⟩)]
  pkgNodes := [("a@1.0.0", ["R"]), ("x@1.0.0", ["X"])]

/-- Left graph of the claim C3 counterexample: the root is also a dependency
of its own dependency, so a co-traversal can reach a pair whose left node is
the root while the right node is not. -/
def gSkipA : DepGraphImpl where
  nodes := [("R", ⟨"r@1.0.0", none⟩), ("X", ⟨"x@1.0.0", none⟩)]
  edges := [("R", "X"), ("X", "R")]
  rootNodeId := "R"
  pkgs := [("r@1.0.0", ⟨"r", some "1.0.0"⟩), ("x@1.0.0", ⟨"x", some "1.0.0"⟩)]
  pkgNodes := [("r@1.0.0", ["R"]), ("x@1.0.0", ["X"])]

/-- Right graph of the claim C3 counterexample: same `x` package below the
root, but below it a node with package `z`, which loops back. -/
def gSkipB : DepGraphImpl where
  nodes := [("R2", ⟨"r@1.0.0", none⟩), ("X2", ⟨"x@1.0.0", none⟩), ("Y", ⟨"z@1.0.0", none⟩)]
  edges := [("R2", "X2"), ("X2", "Y"), ("Y", "X2")]
  rootNodeId := "R2"
  pkgs := [("r@1.0.0", ⟨"r", some "1.0.0"⟩), ("x@1.0.0", ⟨"x", some "1.0.0"⟩),
           ("z@1.0.0", ⟨"z", some "1.0.0"⟩)]
  pkgNodes := [("r@1.0.0", ["R2"]), ("x@1.0.0", ["X2"]), ("z@1.0.0", ["Y"])]

/-- Root `a@1.0.0` with a single dependency `b@1.0.0`. -/
def gRootV1 : DepGraphImpl where
  nodes := [("R", ⟨"a@1.0.0", none⟩), ("B", ⟨"b@1.0.0", none⟩)]
  edges := [("R", "B")]
  rootNodeId := "R"
  pkgs := [("a@1.0.0", ⟨"a", some "1.0.0"⟩), ("b@1.0.0", ⟨"b", some "1.0.0"⟩)]
  pkgNodes := [("a@1.0.0", ["R"]), ("b@1.0.0", ["B"])]

/-- Same graph as `gRootV1` except for the version of the root package. -/
def gRootV2 : DepGraphImpl where
  nodes := [("R", ⟨"a@2.0.0", none⟩), ("B", ⟨"b@1.0.0", none⟩)]
  edges := [("R", "B")]
  rootNodeId := "R"
  pkgs := [("a@2.0.0", ⟨"a", some "2.0.0"⟩), ("b@1.0.0", ⟨"b", some "1.0.0"⟩)]
  pkgNodes := [("a@2.0.0", ["R"]), ("b@1.0.0", ["B"])]

theorem exceptMapList_ok_iff {α β : Type} (f : α → Except Err β) :
    ∀ {l : List α} {ys : List β},
      exceptMapList f l = .ok ys ↔ List.Forall₂ (fun x y => f x = .ok y) l ys := by
  intro l
  induction l with
  | nil =>
    intro ys
    constructor
    · intro h
      simp only [exceptMapList, Except.ok.injEq] at h
      subst h
      exact .nil
    · intro h
      cases h
      rfl
  | cons x xs ih =>
    intro ys
    constructor
    · intro h
      cases hfx : f x with
      | error e => simp [exceptMapList, hfx] at h
      | ok y =>
        cases hrest : exceptMapList f xs with
        | error e => simp [exceptMapList, hfx, hrest] at h
        | ok ys2 =>
          simp only [exceptMapList, hfx, hrest, Except.ok.injEq] at h
          subst h
          exact .cons hfx (ih.mp hrest)
    · intro h
      cases h with
      | cons hfx hrest => simp [exceptMapList, hfx, ih.mpr hrest]

theorem exceptMapList_error_mem {α β : Type} (f : α → Except Err β) :
    ∀ {l : List α} {e : Err}, exceptMapList f l = .error e → ∃ x ∈ l, f x = .error e := by
  intro l
  induction l with
  | nil =>
    intro e h
    simp [exceptMapList] at h
  | cons x xs ih =>
    intro e h
    cases hfx : f x with
    | error e2 =>
      simp only [exceptMapList, hfx, Except.error.injEq] at h
      exact ⟨x, by simp, by rw [hfx, h]⟩
    | ok y =>
      cases hrest : exceptMapList f xs with
      | error e2 =>
        simp only [exceptMapList, hfx, hrest, Except.error.injEq] at h
        obtain ⟨x2, hm, hx2⟩ := ih hrest
        exact ⟨x2, by simp [hm], by rw [hx2, h]⟩
      | ok ys => simp [exceptMapList, hfx, hrest] at h

theorem exceptMapList_ok_map {α β : Type} {f : α → Except Err β} {gfun : α → β} :
    ∀ {l : List α}, (∀ x ∈ l, f x = .ok (gfun x)) → exceptMapList f l = .ok (l.map gfun) := by
  intro l
  induction l with
  | nil => intro _; rfl
  | cons x xs ih =>
    intro h
    have hx := h x (by simp)
    have hxs := ih (fun y hy => h y (by simp [hy]))
    simp [exceptMapList, hx, hxs]

theorem exceptSumList_ok {α : Type} {f : α → Except Err Nat} :
    ∀ {l : List α} {ns : List Nat}, List.Forall₂ (fun x n => f x = .ok n) l ns →
      ∀ acc, exceptSumList f acc l = .ok (acc + ns.sum) := by
  intro l ns h
  induction h with
  | nil => intro acc; simp [exceptSumList]
  | @cons x n xs ns2 hfx hrest ih =>
    intro acc
    simp only [exceptSumList, hfx, ih (acc + n), List.sum_cons, Except.ok.injEq]
    omega

theorem exceptSumList_error_mem {α : Type} (f : α → Except Err Nat) :
    ∀ {l : List α} {acc : Nat} {e : Err},
      exceptSumList f acc l = .error e → ∃ x ∈ l, f x = .error e := by
  intro l
  induction l with
  | nil =>
    intro acc e h
    simp [exceptSumList] at h
  | cons x xs ih =>
    intro acc e h
    cases hfx : f x with
    | error e2 =>
      simp only [exceptSumList, hfx, Except.error.injEq] at h
      exact ⟨x, by simp, by rw [hfx, h]⟩
    | ok c =>
      simp only [exceptSumList, hfx] at h
      obtain ⟨x2, hm, hx2⟩ := ih h
      exact ⟨x2, by simp [hm], hx2⟩

theorem graphNode?_eq_none_iff {g : DepGraphImpl} {id : String} :
    graphNode? g id = none ↔ id ∉ nodeIds g := by
  unfold graphNode? nodeIds
  rw [Option.map_eq_none', List.find?_eq_none]
  constructor
  · intro h hmem
    obtain ⟨n, hn, hfst⟩ := List.mem_map.mp hmem
    have hne : ¬(n.1 = id) := by simpa using h n hn
    exact hne hfst
  · intro h n hn
    simp only [decide_eq_true_eq]
    intro hc
    exact h (List.mem_map.mpr ⟨n, hn, hc⟩)

theorem graphNode?_eq_some_of_mem {g : DepGraphImpl} {id : String} (h : id ∈ nodeIds g) :
    ∃ n, graphNode? g id = some n := by
  cases hn : graphNode? g id with
  | none => exact absurd h (graphNode?_eq_none_iff.mp hn)
  | some n => exact ⟨n, rfl⟩

theorem getGraphNode_error_of_not_mem {g : DepGraphImpl} {id : String} (h : id ∉ nodeIds g) :
    getGraphNode g id = .error (.unknownNode id) := by
  simp [getGraphNode, graphNode?_eq_none_iff.mpr h]

theorem getNode_ok_of_mem {g : DepGraphImpl} {id : String} (h : id ∈ nodeIds g) :
    getNode g id = .ok (nodeView g id) := by
  obtain ⟨n, hn⟩ := graphNode?_eq_some_of_mem h
  simp [getNode, getGraphNode, hn, Except.map, nodeView, storedNodeInfo, nodePkgView]

theorem getNode_error_of_not_mem {g : DepGraphImpl} {id : String} (h : id ∉ nodeIds g) :
    getNode g id = .error (.unknownNode id) := by
  simp [getNode, getGraphNode_error_of_not_mem h, Except.map]

theorem getNodePkg_ok_of_mem {g : DepGraphImpl} {id : String} (h : id ∈ nodeIds g) :
    getNodePkg g id = .ok (nodePkgView g id) := by
  obtain ⟨n, hn⟩ := graphNode?_eq_some_of_mem h
  simp [getNodePkg, getGraphNode, hn, Except.map, nodePkgView]

theorem successors_of_mem {g : DepGraphImpl} {id : String} (h : id ∈ nodeIds g) :
    successors g id = some ((g.edges.filter (fun e => e.1 = id)).map (·.2)) := by
  simp [successors, h]

theorem predecessors_of_mem {g : DepGraphImpl} {id : String} (h : id ∈ nodeIds g) :
    predecessors g id = some ((g.edges.filter (fun e => e.2 = id)).map (·.1)) := by
  simp [predecessors, h]

theorem getNodeDepsNodeIds_ok_of_mem {g : DepGraphImpl} {id : String} (h : id ∈ nodeIds g) :
    getNodeDepsNodeIds g id = .ok ((g.edges.filter (fun e => e.1 = id)).map (·.2)) := by
  simp [getNodeDepsNodeIds, successors_of_mem h]

theorem getNodeDepsNodeIds_error_of_not_mem {g : DepGraphImpl} {id : String} (h : id ∉ nodeIds g) :
    getNodeDepsNodeIds g id = .error (.unknownNode id) := by
  simp [getNodeDepsNodeIds, successors, h]

theorem getNodeParentsNodeIds_ok_of_mem {g : DepGraphImpl} {id : String} (h : id ∈ nodeIds g) :
    getNodeParentsNodeIds g id = .ok ((g.edges.filter (fun e => e.2 = id)).map (·.1)) := by
  simp [getNodeParentsNodeIds, predecessors_of_mem h]

theorem getNodeParentsNodeIds_error_of_not_mem {g : DepGraphImpl} {id : String}
    (h : id ∉ nodeIds g) :
    getNodeParentsNodeIds g id = .error (.unknownNode id) := by
  simp [getNodeParentsNodeIds, predecessors, h]

theorem depIds_subset_nodeIds {g : DepGraphImpl}
    (hedges : ∀ e ∈ g.edges, e.1 ∈ nodeIds g ∧ e.2 ∈ nodeIds g) {id : String} :
    ∀ d ∈ (g.edges.filter (fun e => e.1 = id)).map (·.2), d ∈ nodeIds g := by
  intro d hd
  obtain ⟨e, he, rfl⟩ := List.mem_map.mp hd
  exact (hedges e (List.mem_filter.mp he).1).2

theorem parentIds_subset_nodeIds {g : DepGraphImpl}
    (hedges : ∀ e ∈ g.edges, e.1 ∈ nodeIds g ∧ e.2 ∈ nodeIds g) {id : String} :
    ∀ p ∈ (g.edges.filter (fun e => e.2 = id)).map (·.1), p ∈ nodeIds g := by
  intro p hp
  obtain ⟨e, he, rfl⟩ := List.mem_map.mp hp
  exact (hedges e (List.mem_filter.mp he).1).1

theorem getNodeDeps_ok_of_valid {g : DepGraphImpl}
    (hedges : ∀ e ∈ g.edges, e.1 ∈ nodeIds g ∧ e.2 ∈ nodeIds g) {id : String}
    (h : id ∈ nodeIds g) :
    getNodeDeps g id = .ok (((g.edges.filter (fun e => e.1 = id)).map (·.2)).map (nodeView g)) := by
  rw [getNodeDeps.eq_def, getNodeDepsNodeIds_ok_of_mem h]
  refine exceptMapList_ok_map (fun d hd => ?_)
  obtain ⟨n, hn⟩ := graphNode?_eq_some_of_mem (depIds_subset_nodeIds hedges d hd)
  simp [getGraphNode, hn, Except.map, nodeView, storedNodeInfo, nodePkgView]

theorem except_map_eq_ok_iff {α β : Type} {x : Except Err α} {f : α → β} {y : β} :
    x.map f = .ok y ↔ ∃ a, x = .ok a ∧ f a = y := by
  cases x <;> simp [Except.map]

theorem except_map_eq_error_iff {α β : Type} {x : Except Err α} {f : α → β} {e : Err} :
    x.map f = .error e ↔ x = .error e := by
  cases x <;> simp [Except.map]

theorem exceptMapList_ok_of_forall {α β : Type} {f : α → Except Err β} :
    ∀ {l : List α}, (∀ x ∈ l, ∃ y, f x = .ok y) → ∃ ys, exceptMapList f l = .ok ys := by
  intro l
  induction l with
  | nil => intro _; exact ⟨[], rfl⟩
  | cons x xs ih =>
    intro h
    obtain ⟨y, hy⟩ := h x (by simp)
    obtain ⟨ys, hys⟩ := ih (fun z hz => h z (by simp [hz]))
    exact ⟨y :: ys, by simp [exceptMapList, hy, hys]⟩

theorem getNodeParentsNodeIds_ok_iff {g : DepGraphImpl} {id : String} {parents : List String} :
    getNodeParentsNodeIds g id = .ok parents ↔ predecessors g id = some parents := by
  unfold getNodeParentsNodeIds
  cases predecessors g id <;> simp

theorem nodePkgView_eq_of_ok {g : DepGraphImpl} {id : String} {p : Option Pkg}
    (h : getNodePkg g id = .ok p) : nodePkgView g id = p := by
  unfold getNodePkg getGraphNode at h
  cases hn : graphNode? g id with
  | none => rw [hn] at h; simp [Except.map] at h
  | some n =>
    rw [hn] at h
    simp only [Except.map, Except.ok.injEq] at h
    simp [nodePkgView, hn, h]

theorem rankOf_cons {r : List String} {rs : List (List String)} {v : String} :
    rankOf (r :: rs) v = if v ∈ r then 0 else rankOf rs v + 1 := by
  by_cases hv : v ∈ r <;> simp [rankOf, List.findIdx_cons, hv]

theorem peelRounds_length {edges : List (String × String)} :
    ∀ {f : Nat} {rem : List String} {rounds : List (List String)},
      peelRounds edges f rem = some rounds → rounds.length ≤ f := by
  intro f
  induction f with
  | zero =>
    intro rem rounds h
    cases hrem : rem.isEmpty <;> simp [peelRounds, hrem] at h
    simp [← h]
  | succ f ih =>
    intro rem rounds h
    cases hrem : rem.isEmpty
    · simp only [peelRounds, hrem, Bool.false_eq_true, if_false] at h
      cases hsrc : (rem.filter
          (fun v => ¬(edges.any (fun e => e.2 = v ∧ e.1 ∈ rem)))).isEmpty
      · rw [hsrc] at h
        simp only [Bool.false_eq_true, if_false] at h
        obtain ⟨rounds2, hr2, hcons⟩ := Option.map_eq_some'.mp h
        subst hcons
        simpa using Nat.succ_le_succ (ih hr2)
      · rw [hsrc] at h
        simp at h
    · simp [peelRounds, hrem] at h
      subst h
      simp

theorem peelRounds_edge_rank {edges : List (String × String)} :
    ∀ {f : Nat} {rem : List String} {rounds : List (List String)},
      peelRounds edges f rem = some rounds →
      ∀ {u v : String}, (u, v) ∈ edges → u ∈ rem → v ∈ rem →
        rankOf rounds u < rankOf rounds v := by
  intro f
  induction f with
  | zero =>
    intro rem rounds h u v he hu hv
    cases hrem : rem.isEmpty
    · simp [peelRounds, hrem] at h
    · rw [List.isEmpty_iff.mp hrem] at hu
      simp at hu
  | succ f ih =>
    intro rem rounds h u v he hu hv
    cases hrem : rem.isEmpty
    case true =>
      rw [List.isEmpty_iff.mp hrem] at hu
      simp at hu
    case false =>
      simp only [peelRounds, hrem, Bool.false_eq_true, if_false] at h
      cases hsrc : (rem.filter
          (fun w => ¬(edges.any (fun e => e.2 = w ∧ e.1 ∈ rem)))).isEmpty
      case true =>
        rw [hsrc] at h
        simp at h
      case false =>
        rw [hsrc] at h
        simp only [Bool.false_eq_true, if_false] at h
        obtain ⟨rounds2, hr2, hcons⟩ := Option.map_eq_some'.mp h
        subst hcons
        have hvnotsrc : v ∉ rem.filter (fun w => ¬(edges.any (fun e => e.2 = w ∧ e.1 ∈ rem))) := by
          intro hvmem
          have hpred := (List.mem_filter.mp hvmem).2
          simp only [decide_eq_true_eq] at hpred
          exact hpred (List.any_eq_true.mpr ⟨(u, v), he, by simp [hu]⟩)
        by_cases husrc : u ∈ rem.filter (fun w => ¬(edges.any (fun e => e.2 = w ∧ e.1 ∈ rem)))
        · rw [rankOf_cons, rankOf_cons, if_pos husrc, if_neg hvnotsrc]
          exact Nat.succ_pos _
        · have hu2 : u ∈ rem.filter
              (fun w => w ∉ rem.filter (fun x => ¬(edges.any (fun e => e.2 = x ∧ e.1 ∈ rem)))) := by
            exact List.mem_filter.mpr ⟨hu, by simpa using husrc⟩
          have hv2 : v ∈ rem.filter
              (fun w => w ∉ rem.filter (fun x => ¬(edges.any (fun e => e.2 = x ∧ e.1 ∈ rem)))) := by
            exact List.mem_filter.mpr ⟨hv, by simpa using hvnotsrc⟩
          rw [rankOf_cons, rankOf_cons, if_neg husrc, if_neg hvnotsrc]
          exact Nat.succ_lt_succ (ih hr2 he hu2 hv2)

theorem pathsFromNodeToRoot_ok_of_rank {g : DepGraphImpl} {rounds : List (List String)}
    (hedges : ∀ e ∈ g.edges, e.1 ∈ nodeIds g ∧ e.2 ∈ nodeIds g)
    (hpeel : peelRounds g.edges (nodeIds g).length (nodeIds g) = some rounds) :
    ∀ (f : Nat) (id : String), id ∈ nodeIds g → rankOf rounds id + 1 ≤ f →
      ∃ l, pathsFromNodeToRoot g f id = .ok l := by
  intro f
  induction f with
  | zero =>
    intro id _ hrank
    omega
  | succ f ih =>
    intro id hmem hrank
    have hpar := getNodeParentsNodeIds_ok_of_mem hmem
    have hpkg := getNodePkg_ok_of_mem hmem
    cases hemp : ((g.edges.filter (fun e => e.2 = id)).map (·.1)).isEmpty
    case true =>
      exact ⟨[[nodePkgView g id]], by simp [pathsFromNodeToRoot, hpar, hpkg, hemp]⟩
    case false =>
      have hall : ∀ p ∈ (g.edges.filter (fun e => e.2 = id)).map (·.1),
          ∃ y, (pathsFromNodeToRoot g f p).map
            (fun paths => paths.map (fun path => nodePkgView g id :: path)) = .ok y := by
        intro p hp
        have hpmem : p ∈ nodeIds g := parentIds_subset_nodeIds hedges p hp
        obtain ⟨e, he, hfst⟩ := List.mem_map.mp hp
        have hefil := List.mem_filter.mp he
        have hsnd : e.2 = id := by simpa using hefil.2
        have hedge : (p, id) ∈ g.edges := by
          have hpe : e = (p, id) := by
            cases e
            simp_all
          rw [← hpe]
          exact hefil.1
        have hrlt := peelRounds_edge_rank hpeel hedge hpmem hmem
        obtain ⟨lp, hlp⟩ := ih p hpmem (by omega)
        exact ⟨lp.map (fun path => nodePkgView g id :: path), by simp [hlp, Except.map]⟩
      obtain ⟨ys, hys⟩ := exceptMapList_ok_of_forall hall
      exact ⟨ys.flatten, by simp [pathsFromNodeToRoot, hpar, hpkg, hemp, hys]⟩

theorem hasCycles_false_peel {g : DepGraphImpl} (h : hasCycles g = false) :
    ∃ rounds, peelRounds g.edges (nodeIds g).length (nodeIds g) = some rounds := by
  unfold hasCycles at h
  cases hp : peelRounds g.edges (nodeIds g).length (nodeIds g) with
  | none => rw [hp] at h; simp at h
  | some rounds => exact ⟨rounds, rfl⟩

theorem pathsFromNodeToRoot_ok_of_acyclic {g : DepGraphImpl}
    (hedges : ∀ e ∈ g.edges, e.1 ∈ nodeIds g ∧ e.2 ∈ nodeIds g)
    (hcyc : hasCycles g = false) {id : String} (hmem : id ∈ nodeIds g) :
    ∃ l, pathsFromNodeToRoot g (nodeFuel g) id = .ok l := by
  obtain ⟨rounds, hpeel⟩ := hasCycles_false_peel hcyc
  have hlen : rounds.length ≤ (nodeIds g).length := peelRounds_length hpeel
  have hrank : rankOf rounds id ≤ rounds.length := List.findIdx_le_length _
  have hnodes : (nodeIds g).length = g.nodes.length := by simp [nodeIds]
  exact pathsFromNodeToRoot_ok_of_rank hedges hpeel (nodeFuel g) id hmem
    (by unfold nodeFuel; omega)

theorem countNode_eq_length_of_paths {g : DepGraphImpl} :
    ∀ {f : Nat} {id : String} {l : List (List (Option Pkg))},
      pathsFromNodeToRoot g f id = .ok l →
      countNodePathsToRoot g f id = .ok l.length := by
  intro f
  induction f with
  | zero =>
    intro id l h
    simp [pathsFromNodeToRoot] at h
  | succ f ih =>
    intro id l h
    cases hpar : getNodeParentsNodeIds g id with
    | error e => simp [pathsFromNodeToRoot, hpar] at h
    | ok parents =>
      cases hpkg : getNodePkg g id with
      | error e => simp [pathsFromNodeToRoot, hpar, hpkg] at h
      | ok pkg =>
        cases hemp : parents.isEmpty
        case true =>
          simp only [pathsFromNodeToRoot, hpar, hpkg, hemp, if_true, Except.ok.injEq] at h
          subst h
          simp [countNodePathsToRoot, hpar, hemp]
        case false =>
          simp only [pathsFromNodeToRoot, hpar, hpkg, hemp, Bool.false_eq_true, if_false] at h
          cases hmap : exceptMapList (fun id2 =>
              (pathsFromNodeToRoot g f id2).map
                (fun paths => paths.map (fun path => pkg :: path))) parents with
          | error e => rw [hmap] at h; simp at h
          | ok allPaths =>
            rw [hmap] at h
            simp only [Except.ok.injEq] at h
            subst h
            have hf2 := (exceptMapList_ok_iff _).mp hmap
            have hcnt : List.Forall₂ (fun x n => countNodePathsToRoot g f x = .ok n)
                parents (allPaths.map (·.length)) := by
              rw [List.forall₂_map_right_iff]
              refine hf2.imp (fun a b hab => ?_)
              obtain ⟨lp, hlp, hmapped⟩ := except_map_eq_ok_iff.mp hab
              have := ih hlp
              rw [this, ← hmapped]
              simp
            have hsum := exceptSumList_ok hcnt 0
            simp only [countNodePathsToRoot, hpar, hemp, Bool.false_eq_true, if_false]
            rw [hsum]
            simp [List.length_flatten, Function.comp]

theorem specUpwardPaths_eq_of_paths_ok {g : DepGraphImpl} :
    ∀ {f : Nat} {id : String} {l : List (List (Option Pkg))},
      pathsFromNodeToRoot g f id = .ok l → specUpwardPaths g f id = l := by
  intro f
  induction f with
  | zero =>
    intro id l h
    simp [pathsFromNodeToRoot] at h
  | succ f ih =>
    intro id l h
    cases hpar : getNodeParentsNodeIds g id with
    | error e => simp [pathsFromNodeToRoot, hpar] at h
    | ok parents =>
      cases hpkg : getNodePkg g id with
      | error e => simp [pathsFromNodeToRoot, hpar, hpkg] at h
      | ok pkg =>
        have hpred : predecessors g id = some parents := getNodeParentsNodeIds_ok_iff.mp hpar
        have hview : nodePkgView g id = pkg := nodePkgView_eq_of_ok hpkg
        cases hemp : parents.isEmpty
        case true =>
          simp only [pathsFromNodeToRoot, hpar, hpkg, hemp, if_true, Except.ok.injEq] at h
          subst h
          simp [specUpwardPaths, hpred, hemp, hview]
        case false =>
          simp only [pathsFromNodeToRoot, hpar, hpkg, hemp, Bool.false_eq_true, if_false] at h
          cases hmap : exceptMapList (fun id2 =>
              (pathsFromNodeToRoot g f id2).map
                (fun paths => paths.map (fun path => pkg :: path))) parents with
          | error e => rw [hmap] at h; simp at h
          | ok allPaths =>
            rw [hmap] at h
            simp only [Except.ok.injEq] at h
            subst h
            have hf2 := (exceptMapList_ok_iff _).mp hmap
            have hmapeq : parents.map
                (fun p => (specUpwardPaths g f p).map (fun path => pkg :: path)) = allPaths := by
              rw [← List.forall₂_eq_eq_eq, List.forall₂_map_left_iff]
              refine hf2.imp (fun a b hab => ?_)
              obtain ⟨lp, hlp, hmapped⟩ := except_map_eq_ok_iff.mp hab
              rw [ih hlp, hmapped]
            simp only [specUpwardPaths, hpred, Option.getD_some, hemp, Bool.false_eq_true,
              if_false, hview]
            rw [List.flatMap_def, hmapeq]

theorem getNodeParentsNodeIds_error_kind {g : DepGraphImpl} {id : String} {e : Err}
    (h : getNodeParentsNodeIds g id = .error e) : e = .unknownNode id := by
  unfold getNodeParentsNodeIds at h
  cases hp : predecessors g id with
  | none =>
    rw [hp] at h
    exact (Except.error.inj h).symm
  | some parents => rw [hp] at h; simp at h

theorem getNodePkg_error_kind {g : DepGraphImpl} {id : String} {e : Err}
    (h : getNodePkg g id = .error e) : e = .unknownNode id := by
  unfold getNodePkg getGraphNode at h
  cases hn : graphNode? g id with
  | none =>
    rw [hn] at h
    simp only [Except.map] at h
    exact (Except.error.inj h).symm
  | some n => rw [hn] at h; simp [Except.map] at h

theorem getPkgNodeIds_error_kind {g : DepGraphImpl} {pkg : Pkg} {e : Err}
    (h : getPkgNodeIds g pkg = .error e) :
    e = .unknownPackage (getPkgId pkg) ∨ e = .typeError := by
  unfold getPkgNodeIds at h
  by_cases hp : (lookupPkg g (getPkgId pkg)).isNone
  · rw [if_pos hp] at h
    exact .inl (Except.error.inj h).symm
  · rw [if_neg hp] at h
    cases hn : lookupPkgNodes g (getPkgId pkg) with
    | none =>
      rw [hn] at h
      exact .inr (Except.error.inj h).symm
    | some ids => rw [hn] at h; simp at h

theorem pathsFromNodeToRoot_error_ne_cyclic {g : DepGraphImpl} :
    ∀ {f : Nat} {id : String} {e : Err},
      pathsFromNodeToRoot g f id = .error e → e ≠ .cyclicGraphUnsupported := by
  intro f
  induction f with
  | zero =>
    intro id e h
    simp only [pathsFromNodeToRoot, Except.error.injEq] at h
    subst h
    simp
  | succ f ih =>
    intro id e h
    cases hpar : getNodeParentsNodeIds g id with
    | error e2 =>
      simp only [pathsFromNodeToRoot, hpar, Except.error.injEq] at h
      subst h
      rw [getNodeParentsNodeIds_error_kind hpar]
      simp
    | ok parents =>
      cases hpkg : getNodePkg g id with
      | error e2 =>
        simp only [pathsFromNodeToRoot, hpar, hpkg, Except.error.injEq] at h
        subst h
        rw [getNodePkg_error_kind hpkg]
        simp
      | ok pkg =>
        cases hemp : parents.isEmpty
        case true => simp [pathsFromNodeToRoot, hpar, hpkg, hemp] at h
        case false =>
          simp only [pathsFromNodeToRoot, hpar, hpkg, hemp, Bool.false_eq_true, if_false] at h
          cases hmap : exceptMapList (fun id2 =>
              (pathsFromNodeToRoot g f id2).map
                (fun paths => paths.map (fun path => pkg :: path))) parents with
          | error e2 =>
            rw [hmap] at h
            obtain ⟨p, _, hp⟩ := exceptMapList_error_mem _ hmap
            have hrec := except_map_eq_error_iff.mp hp
            have := ih hrec
            simp only [Except.error.injEq] at h
            subst h
            exact this
          | ok allPaths => rw [hmap] at h; simp at h

theorem countNodePathsToRoot_error_ne_cyclic {g : DepGraphImpl} :
    ∀ {f : Nat} {id : String} {e : Err},
      countNodePathsToRoot g f id = .error e → e ≠ .cyclicGraphUnsupported := by
  intro f
  induction f with
  | zero =>
    intro id e h
    simp only [countNodePathsToRoot, Except.error.injEq] at h
    subst h
    simp
  | succ f ih =>
    intro id e h
    cases hpar : getNodeParentsNodeIds g id with
    | error e2 =>
      simp only [countNodePathsToRoot, hpar, Except.error.injEq] at h
      subst h
      rw [getNodeParentsNodeIds_error_kind hpar]
      simp
    | ok parents =>
      cases hemp : parents.isEmpty
      case true => simp [countNodePathsToRoot, hpar, hemp] at h
      case false =>
        simp only [countNodePathsToRoot, hpar, hemp, Bool.false_eq_true, if_false] at h
        obtain ⟨p, _, hp⟩ := exceptSumList_error_mem _ h
        exact ih hp

theorem lookupPkg_eq_none_iff {g : DepGraphImpl} {k : String} :
    lookupPkg g k = none ↔ k ∉ g.pkgs.map (·.1) := by
  unfold lookupPkg
  rw [Option.map_eq_none', List.find?_eq_none]
  constructor
  · intro h hmem
    obtain ⟨e, he, hfst⟩ := List.mem_map.mp hmem
    have hne : ¬(e.1 = k) := by simpa using h e he
    exact hne hfst
  · intro h e he
    simp only [decide_eq_true_eq]
    intro hc
    exact h (List.mem_map.mpr ⟨e, he, hc⟩)

theorem lookupPkgNodes_eq_none_iff {g : DepGraphImpl} {k : String} :
    lookupPkgNodes g k = none ↔ k ∉ g.pkgNodes.map (·.1) := by
  unfold lookupPkgNodes
  rw [Option.map_eq_none', List.find?_eq_none]
  constructor
  · intro h hmem
    obtain ⟨e, he, hfst⟩ := List.mem_map.mp hmem
    have hne : ¬(e.1 = k) := by simpa using h e he
    exact hne hfst
  · intro h e he
    simp only [decide_eq_true_eq]
    intro hc
    exact h (List.mem_map.mpr ⟨e, he, hc⟩)

theorem lookupPkg_eq_some_of_mem {g : DepGraphImpl} {k : String}
    (h : k ∈ g.pkgs.map (·.1)) : ∃ p, lookupPkg g k = some p := by
  cases hl : lookupPkg g k with
  | none => exact absurd h (lookupPkg_eq_none_iff.mp hl)
  | some p => exact ⟨p, rfl⟩

theorem lookupPkgNodes_eq_some_of_mem {g : DepGraphImpl} {k : String}
    (h : k ∈ g.pkgNodes.map (·.1)) : ∃ ids, lookupPkgNodes g k = some ids := by
  cases hl : lookupPkgNodes g k with
  | none => exact absurd h (lookupPkgNodes_eq_none_iff.mp hl)
  | some ids => exact ⟨ids, rfl⟩

theorem lookupPkgNodes_mem {g : DepGraphImpl} {k : String} {ids : List String}
    (h : lookupPkgNodes g k = some ids) : (k, ids) ∈ g.pkgNodes := by
  unfold lookupPkgNodes at h
  obtain ⟨e, hfind, hsnd⟩ := Option.map_eq_some'.mp h
  have hfst : e.1 = k := by simpa using List.find?_some hfind
  have hmem := List.mem_of_find?_eq_some hfind
  have : e = (k, ids) := by
    cases e
    simp_all
  rw [← this]
  exact hmem

theorem forall2_mem_right {α β : Type} {R : α → β → Prop} :
    ∀ {l : List α} {ys : List β}, List.Forall₂ R l ys → ∀ y ∈ ys, ∃ x ∈ l, R x y := by
  intro l ys h
  induction h with
  | nil => simp
  | @cons a b l2 ys2 hR _ ih =>
    intro y hy
    rcases List.mem_cons.mp hy with rfl | hy2
    · exact ⟨a, by simp, hR⟩
    · obtain ⟨x, hx, hRx⟩ := ih y hy2
      exact ⟨x, by simp [hx], hRx⟩

theorem assoc_entry_eq_of_key_eq {α : Type} :
    ∀ {l : List (String × α)}, (l.map (·.1)).Nodup →
      ∀ {e1 e2 : String × α}, e1 ∈ l → e2 ∈ l → e1.1 = e2.1 → e1 = e2 := by
  intro l
  induction l with
  | nil => intro _ e1 e2 h1; simp at h1
  | cons a t ih =>
    intro hnd e1 e2 h1 h2 hk
    have hnd2 : (t.map (·.1)).Nodup := (List.nodup_cons.mp hnd).2
    have hna : a.1 ∉ t.map (·.1) := (List.nodup_cons.mp hnd).1
    rcases List.mem_cons.mp h1 with rfl | h1t
    · rcases List.mem_cons.mp h2 with rfl | h2t
      · rfl
      · exact absurd (List.mem_map.mpr ⟨e2, h2t, hk.symm⟩) hna
    · rcases List.mem_cons.mp h2 with rfl | h2t
      · exact absurd (List.mem_map.mpr ⟨e1, h1t, hk⟩) hna
      · exact ih hnd2 h1t h2t hk

/-- C5: on a graph with `hasCycles() = true` both upward path queries,
`pkgPathsToRoot` and `countPathsToRoot`, fail with the CyclicGraphUnsupported
error for every package argument; on an acyclic graph neither query ever
produces that error (it may fail with other error kinds, but never this one). -/
theorem claim_C5_cyclic_guard (g : DepGraphImpl) (pkg : Pkg) :
    (hasCycles g = true →
      pkgPathsToRoot g pkg = .error .cyclicGraphUnsupported ∧
      countPathsToRoot g pkg = .error .cyclicGraphUnsupported) ∧
    (hasCycles g = false →
      pkgPathsToRoot g pkg ≠ .error .cyclicGraphUnsupported ∧
      countPathsToRoot g pkg ≠ .error .cyclicGraphUnsupported) := by
  constructor
  · intro h
    exact ⟨by simp [pkgPathsToRoot, h], by simp [countPathsToRoot, h]⟩
  · intro h
    constructor
    · intro hc
      simp only [pkgPathsToRoot, h, Bool.false_eq_true, if_false] at hc
      cases hids : getPkgNodeIds g pkg with
      | error e =>
        simp only [hids, Except.error.injEq] at hc
        rcases getPkgNodeIds_error_kind hids with h2 | h2 <;> simp_all
      | ok ids =>
        simp only [hids] at hc
        cases hmap : exceptMapList (fun id => pathsFromNodeToRoot g (nodeFuel g) id) ids with
        | error e =>
          simp only [hmap, Except.error.injEq] at hc
          obtain ⟨x, _, hx⟩ := exceptMapList_error_mem _ hmap
          exact pathsFromNodeToRoot_error_ne_cyclic hx hc
        | ok pathss => simp [hmap] at hc
    · intro hc
      simp only [countPathsToRoot, h, Bool.false_eq_true, if_false] at hc
      cases hids : getPkgNodeIds g pkg with
      | error e =>
        simp only [hids, Except.error.injEq] at hc
        rcases getPkgNodeIds_error_kind hids with h2 | h2 <;> simp_all
      | ok ids =>
        simp only [hids] at hc
        obtain ⟨x, _, hx⟩ := exceptSumList_error_mem _ hc
        exact countNodePathsToRoot_error_ne_cyclic hx rfl

/-- Witness for C5: the guard fires on the cyclic two-node graph and never
fires on the acyclic diamond graph. -/
theorem claim_C5_witness :
    (hasCycles gCycle = true ∧
      pkgPathsToRoot gCycle ⟨"x", some "1.0.0"⟩ = .error .cyclicGraphUnsupported ∧
      countPathsToRoot gCycle ⟨"x", some "1.0.0"⟩ = .error .cyclicGraphUnsupported) ∧
    (hasCycles gDiamond = false ∧
      pkgPathsToRoot gDiamond ⟨"d", some "1.0.0"⟩ ≠ .error .cyclicGraphUnsupported ∧
      countPathsToRoot gDiamond ⟨"d", some "1.0.0"⟩ ≠ .error .cyclicGraphUnsupported) :=
  ⟨⟨by decide, (claim_C5_cyclic_guard gCycle ⟨"x", some "1.0.0"⟩).1 (by decide)⟩,
   ⟨by decide, (claim_C5_cyclic_guard gDiamond ⟨"d", some "1.0.0"⟩).2 (by decide)⟩⟩

/-- C7: `getNode` (node view), `getNodeDepsNodeIds` (direct successors) and
`getNodeParentsNodeIds` (direct predecessors) fail with the UnknownNode error
exactly on ids absent from the graph; on present ids they return the node
view, the successor list and the predecessor list without error. -/
theorem claim_C7_unknown_node (g : DepGraphImpl) (id : String) :
    (id ∉ nodeIds g →
      getNode g id = .error (.unknownNode id) ∧
      getNodeDepsNodeIds g id = .error (.unknownNode id) ∧
      getNodeParentsNodeIds g id = .error (.unknownNode id)) ∧
    (id ∈ nodeIds g →
      getNode g id = .ok (nodeView g id) ∧
      getNodeDepsNodeIds g id = .ok ((g.edges.filter (fun e => e.1 = id)).map (·.2)) ∧
      getNodeParentsNodeIds g id = .ok ((g.edges.filter (fun e => e.2 = id)).map (·.1))) :=
  ⟨fun h => ⟨getNode_error_of_not_mem h, getNodeDepsNodeIds_error_of_not_mem h,
    getNodeParentsNodeIds_error_of_not_mem h⟩,
   fun h => ⟨getNode_ok_of_mem h, getNodeDepsNodeIds_ok_of_mem h,
    getNodeParentsNodeIds_ok_of_mem h⟩⟩

/-- Witness for C7 at an absent id and at the root id of the diamond graph. -/
theorem claim_C7_witness :
    ("Z" ∉ nodeIds gDiamond ∧
      getNode gDiamond "Z" = .error (.unknownNode "Z") ∧
      getNodeDepsNodeIds gDiamond "Z" = .error (.unknownNode "Z") ∧
      getNodeParentsNodeIds gDiamond "Z" = .error (.unknownNode "Z")) ∧
    ("R" ∈ nodeIds gDiamond ∧
      getNode gDiamond "R" = .ok (nodeView gDiamond "R") ∧
      getNodeDepsNodeIds gDiamond "R" =
        .ok ((gDiamond.edges.filter (fun e => e.1 = "R")).map (·.2)) ∧
      getNodeParentsNodeIds gDiamond "R" =
        .ok ((gDiamond.edges.filter (fun e => e.2 = "R")).map (·.1))) :=
  ⟨⟨by decide, (claim_C7_unknown_node gDiamond "Z").1 (by decide)⟩,
   ⟨by decide, (claim_C7_unknown_node gDiamond "R").2 (by decide)⟩⟩

/-- C10: every node view returned by `getNode`, `getNodeDeps` or
`getPkgNodes` carries as its `info` field the stored node info with the empty
object substituted when the stored node has none; in particular the view
never lacks the field (its type is total) and it is `{}` exactly when nothing
was stored. -/
theorem claim_C10_info_defaults (g : DepGraphImpl) :
    (∀ id v, getNode g id = .ok v → v.info = (storedNodeInfo g id).getD []) ∧
    (∀ id vs, getNodeDeps g id = .ok vs → ∀ v ∈ vs, v.info = (storedNodeInfo g v.id).getD []) ∧
    (∀ pkg vs, getPkgNodes g pkg = .ok vs →
      ∀ v ∈ vs, v.info = (storedNodeInfo g v.id).getD []) := by
  refine ⟨?_, ?_, ?_⟩
  · intro id v h
    unfold getNode getGraphNode at h
    cases hn : graphNode? g id with
    | none => rw [hn] at h; simp [Except.map] at h
    | some n =>
      rw [hn] at h
      simp only [Except.map, Except.ok.injEq] at h
      subst h
      simp [storedNodeInfo, hn]
  · intro id vs h
    unfold getNodeDeps at h
    cases hd : getNodeDepsNodeIds g id with
    | error e => simp only [hd] at h; exact absurd h (by simp)
    | ok ids =>
      simp only [hd] at h
      have hf2 := (exceptMapList_ok_iff _).mp h
      intro v hv
      obtain ⟨x, _, hR⟩ := forall2_mem_right hf2 v hv
      obtain ⟨n, hgn, hval⟩ := except_map_eq_ok_iff.mp hR
      unfold getGraphNode at hgn
      cases hn : graphNode? g x with
      | none => rw [hn] at hgn; simp at hgn
      | some n2 =>
        rw [hn] at hgn
        simp only [Except.ok.injEq] at hgn
        subst hgn
        subst hval
        simp [storedNodeInfo, hn]
  · intro pkg vs h
    unfold getPkgNodes at h
    cases hl : lookupPkgNodes g (getPkgId pkg) with
    | none => simp only [hl] at h; exact absurd h (by simp)
    | some ids =>
      simp only [hl] at h
      have hf2 := (exceptMapList_ok_iff _).mp h
      intro v hv
      obtain ⟨x, _, hR⟩ := forall2_mem_right hf2 v hv
      obtain ⟨n, hgn, hval⟩ := except_map_eq_ok_iff.mp hR
      unfold getGraphNode at hgn
      cases hn : graphNode? g x with
      | none => rw [hn] at hgn; simp at hgn
      | some n2 =>
        rw [hn] at hgn
        simp only [Except.ok.injEq] at hgn
        subst hgn
        subst hval
        simp [storedNodeInfo, hn]

/-- Witness for C10 at the diamond graph, whose nodes store no info. -/
theorem claim_C10_witness :
    (getNode gDiamond "B" = .ok (nodeView gDiamond "B") ∧
      storedNodeInfo gDiamond "B" = none ∧
      (nodeView gDiamond "B").info = []) ∧
    (nodeView gDiamond "B").info = (storedNodeInfo gDiamond "B").getD [] :=
  ⟨⟨by decide, by decide, by decide⟩,
   (claim_C10_info_defaults gDiamond).1 "B" (nodeView gDiamond "B") (by decide)⟩

/-- Counterexample to C6 as stated: querying the occurrences of a package
absent from the registry makes `getPkgNodes` iterate an absent occurrence
index entry (`Array.from(undefined)`), which raises a TypeError, not an
UnknownPackage error of any package id. -/
theorem claim_C6_counterexample :
    getPkgNodes gDiamond ⟨"nope", some "1.0.0"⟩ = .error .typeError ∧
    ¬∃ s, getPkgNodes gDiamond ⟨"nope", some "1.0.0"⟩ = .error (.unknownPackage s) := by
  refine ⟨by decide, ?_⟩
  intro ⟨s, hs⟩
  rw [(by decide : getPkgNodes gDiamond ⟨"nope", some "1.0.0"⟩ = .error .typeError)] at hs
  simp at hs

/-- C6 amended: on a valid instance, for a package whose id is absent from
the registry the Node-view query `getPkgNodes` fails with a TypeError (not a
dedicated UnknownPackage error), while the id-returning query
`getPkgNodeIds` fails with the UnknownPackage error; for a registered package
`getPkgNodes` returns one node view per occurrence, carrying the occurrence
id, the stored info with the `{}` fallback, and the owning registry package. -/
theorem claim_C6_amended (g : DepGraphImpl) (pkg : Pkg) (hval : ValidGraph g) :
    (getPkgId pkg ∉ g.pkgs.map (·.1) →
      getPkgNodes g pkg = .error .typeError ∧
      getPkgNodeIds g pkg = .error (.unknownPackage (getPkgId pkg))) ∧
    (getPkgId pkg ∈ g.pkgs.map (·.1) →
      ∃ ids, lookupPkgNodes g (getPkgId pkg) = some ids ∧
        getPkgNodes g pkg = .ok (ids.map (fun id =>
          { id := id, info := (storedNodeInfo g id).getD [],
            pkg := lookupPkg g (getPkgId pkg) }))) := by
  obtain ⟨_, _, _, _, _, _, _, _, hkeysPN, hkeysP, hocc⟩ := hval
  constructor
  · intro hmem
    have hnone : lookupPkg g (getPkgId pkg) = none := lookupPkg_eq_none_iff.mpr hmem
    have hmem2 : getPkgId pkg ∉ g.pkgNodes.map (·.1) := fun hc => hmem (hkeysP _ hc)
    have hnone2 : lookupPkgNodes g (getPkgId pkg) = none := lookupPkgNodes_eq_none_iff.mpr hmem2
    constructor
    · simp [getPkgNodes, hnone2]
    · simp [getPkgNodeIds, hnone]
  · intro hmem
    obtain ⟨ids, hids⟩ := lookupPkgNodes_eq_some_of_mem (hkeysPN _ hmem)
    refine ⟨ids, hids, ?_⟩
    have hentry := lookupPkgNodes_mem hids
    unfold getPkgNodes
    simp only [hids]
    refine exceptMapList_ok_map (fun id hid => ?_)
    have hidmem : id ∈ nodeIds g := hocc _ hentry id hid
    obtain ⟨n, hn⟩ := graphNode?_eq_some_of_mem hidmem
    simp [getGraphNode, hn, Except.map, storedNodeInfo]

/-- Witness for C6 amended at the diamond graph: an unregistered and a
registered package. -/
theorem claim_C6_amended_witness :
    (ValidGraph gDiamond ∧
      getPkgId ⟨"nope", some "1.0.0"⟩ ∉ gDiamond.pkgs.map (·.1) ∧
      getPkgNodes gDiamond ⟨"nope", some "1.0.0"⟩ = .error .typeError ∧
      getPkgNodeIds gDiamond ⟨"nope", some "1.0.0"⟩ =
        .error (.unknownPackage (getPkgId ⟨"nope", some "1.0.0"⟩))) ∧
    (getPkgId ⟨"d", some "1.0.0"⟩ ∈ gDiamond.pkgs.map (·.1) ∧
      ∃ ids, lookupPkgNodes gDiamond (getPkgId ⟨"d", some "1.0.0"⟩) = some ids ∧
        getPkgNodes gDiamond ⟨"d", some "1.0.0"⟩ = .ok (ids.map (fun id =>
          { id := id, info := (storedNodeInfo gDiamond id).getD [],
            pkg := lookupPkg gDiamond (getPkgId ⟨"d", some "1.0.0"⟩) }))) :=
  ⟨⟨by decide, by decide,
    (claim_C6_amended gDiamond ⟨"nope", some "1.0.0"⟩ (by decide)).1 (by decide)⟩,
   ⟨by decide,
    (claim_C6_amended gDiamond ⟨"d", some "1.0.0"⟩ (by decide)).2 (by decide)⟩⟩

/-- C8: on a valid instance, `getDepPkgs` returns exactly `getPkgs` minus the
root package, the exclusion being by package identity (equal name and equal
version); the reference comparison of the source coincides with it because a
registry in canonical keyed form holds one object per package identity. -/
theorem claim_C8_dependency_packages (g : DepGraphImpl)
    (hnodup : (g.pkgs.map (·.1)).Nodup)
    (hkeys : ∀ e ∈ g.pkgs, e.1 = getPkgId e.2)
    (rp : Pkg) (hroot : rootPkg? g = some rp) :
    getDepPkgs g = (getPkgs g).filter (fun p => ¬samePkg p rp) := by
  unfold rootPkg? lookupPkg at hroot
  obtain ⟨re, hfind, hsnd⟩ := Option.map_eq_some'.mp hroot
  have hrek : re.1 = rootPkgId g := by simpa using List.find?_some hfind
  have hremem := List.mem_of_find?_eq_some hfind
  unfold getDepPkgs getPkgs
  simp only [hfind]
  rw [List.filter_map]
  congr 1
  apply List.filter_congr
  intro e he
  have hiff : e.1 = re.1 ↔ samePkg e.2 rp := by
    constructor
    · intro hk
      have hee : e = re := assoc_entry_eq_of_key_eq hnodup he hremem hk
      rw [hee, hsnd]
      exact ⟨rfl, rfl⟩
    · intro hs
      have h1 : e.1 = getPkgId e.2 := hkeys e he
      have h2 : re.1 = getPkgId re.2 := hkeys re hremem
      have h3 : getPkgId e.2 = getPkgId rp := by
        unfold getPkgId
        rw [hs.1, hs.2]
      rw [h1, h3, h2, hsnd]
  simp [Function.comp, hiff]

/-- Witness for C8 at the diamond graph. -/
theorem claim_C8_witness :
    ((gDiamond.pkgs.map (·.1)).Nodup ∧
      (∀ e ∈ gDiamond.pkgs, e.1 = getPkgId e.2) ∧
      rootPkg? gDiamond = some ⟨"a", some "1.0.0"⟩) ∧
    getDepPkgs gDiamond =
      (getPkgs gDiamond).filter (fun p => ¬samePkg p ⟨"a", some "1.0.0"⟩) :=
  ⟨⟨by decide, by decide, by decide⟩,
   claim_C8_dependency_packages gDiamond (by decide) (by decide) _ (by decide)⟩

/-- C1: on a valid acyclic instance, for every package present in the
registry both upward queries succeed and the count computed by the per-node
dynamic programming (`countPathsToRoot`, 1 for a parentless node, else the
sum over the parents) equals the length of the list `pkgPathsToRoot` returns,
even though no path is materialized by the count. -/
theorem claim_C1_count_eq_paths_length (g : DepGraphImpl) (pkg : Pkg)
    (hval : ValidGraph g) (hcyc : hasCycles g = false)
    (hreg : getPkgId pkg ∈ g.pkgs.map (·.1)) :
    ∃ n l, countPathsToRoot g pkg = .ok n ∧ pkgPathsToRoot g pkg = .ok l ∧ n = l.length := by
  obtain ⟨_, _, _, _, _, hedges, _, _, hkeysPN, _, hocc⟩ := hval
  obtain ⟨p0, hp0⟩ := lookupPkg_eq_some_of_mem hreg
  obtain ⟨ids, hids⟩ := lookupPkgNodes_eq_some_of_mem (hkeysPN _ hreg)
  have hgetids : getPkgNodeIds g pkg = .ok ids := by
    simp [getPkgNodeIds, hp0, hids]
  have hidsmem : ∀ id ∈ ids, id ∈ nodeIds g := hocc _ (lookupPkgNodes_mem hids)
  have hpaths : ∀ id ∈ ids, ∃ lp, pathsFromNodeToRoot g (nodeFuel g) id = .ok lp :=
    fun id hid => pathsFromNodeToRoot_ok_of_acyclic hedges hcyc (hidsmem id hid)
  obtain ⟨pathss, hpathss⟩ := exceptMapList_ok_of_forall hpaths
  have hf2 := (exceptMapList_ok_iff _).mp hpathss
  have hcnt : List.Forall₂ (fun x n => countNodePathsToRoot g (nodeFuel g) x = .ok n)
      ids (pathss.map (·.length)) := by
    rw [List.forall₂_map_right_iff]
    exact hf2.imp (fun a b hab => countNode_eq_length_of_paths hab)
  have hsum := exceptSumList_ok hcnt 0
  refine ⟨(pathss.map (·.length)).sum, List.insertionSort lenLe pathss.flatten, ?_, ?_, ?_⟩
  · simp only [countPathsToRoot, hcyc, Bool.false_eq_true, if_false, hgetids]
    simpa using hsum
  · simp [pkgPathsToRoot, hcyc, hgetids, hpathss]
  · rw [(List.perm_insertionSort lenLe pathss.flatten).length_eq, List.length_flatten]

/-- Witness for C1 at the diamond graph and its leaf package `d`. -/
theorem claim_C1_witness :
    (ValidGraph gDiamond ∧ hasCycles gDiamond = false ∧
      getPkgId ⟨"d", some "1.0.0"⟩ ∈ gDiamond.pkgs.map (·.1)) ∧
    (∃ n l, countPathsToRoot gDiamond ⟨"d", some "1.0.0"⟩ = .ok n ∧
      pkgPathsToRoot gDiamond ⟨"d", some "1.0.0"⟩ = .ok l ∧ n = l.length) :=
  ⟨⟨by decide, by decide, by decide⟩,
   claim_C1_count_eq_paths_length gDiamond ⟨"d", some "1.0.0"⟩ (by decide) (by decide) (by decide)⟩

/-- C2: whenever `pkgPathsToRoot` returns a list, that list is obtained by
concatenating, over the node occurrences of the package in index order, the
recursively defined upward path families (`specUpwardPaths`, written from the
specification), and then sorting the concatenation stably by ascending path
length; the result is a permutation of the raw concatenation (so structurally
identical paths are kept with their multiplicity, no deduplication) and is
sorted by length. -/
theorem claim_C2_paths_enumeration (g : DepGraphImpl) (pkg : Pkg)
    (l : List (List (Option Pkg))) (h : pkgPathsToRoot g pkg = .ok l) :
    ∃ ids, getPkgNodeIds g pkg = .ok ids ∧
      l = List.insertionSort lenLe (ids.flatMap (specUpwardPaths g (nodeFuel g))) ∧
      l.Perm (ids.flatMap (specUpwardPaths g (nodeFuel g))) ∧
      List.Sorted lenLe l := by
  cases hcyc : hasCycles g
  case true =>
    rw [pkgPathsToRoot, if_pos hcyc] at h
    exact absurd h (by simp)
  case false =>
    rw [pkgPathsToRoot, if_neg (by simp [hcyc])] at h
    cases hids : getPkgNodeIds g pkg with
    | error e => simp only [hids] at h; exact absurd h (by simp)
    | ok ids =>
      simp only [hids] at h
      cases hmap : exceptMapList (fun id => pathsFromNodeToRoot g (nodeFuel g) id) ids with
      | error e => simp only [hmap] at h; exact absurd h (by simp)
      | ok pathss =>
        simp only [hmap, Except.ok.injEq] at h
        have hf2 := (exceptMapList_ok_iff _).mp hmap
        have hspec : ids.map (specUpwardPaths g (nodeFuel g)) = pathss := by
          rw [← List.forall₂_eq_eq_eq, List.forall₂_map_left_iff]
          exact hf2.imp (fun a b hab => specUpwardPaths_eq_of_paths_ok hab)
        refine ⟨ids, rfl, ?_, ?_, ?_⟩
        · rw [List.flatMap_def, hspec, h]
        · rw [List.flatMap_def, hspec, ← h]
          exact List.perm_insertionSort lenLe pathss.flatten
        · rw [← h]
          exact List.sorted_insertionSort lenLe pathss.flatten

/-- Witness for C2 at the diamond graph and its leaf package `d`: the two
paths, each of length three, in the order produced by the stable length sort. -/
theorem claim_C2_witness :
    (pkgPathsToRoot gDiamond ⟨"d", some "1.0.0"⟩ =
      .ok [[some ⟨"d", some "1.0.0"⟩, some ⟨"b", some "1.0.0"⟩, some ⟨"a", some "1.0.0"⟩],
           [some ⟨"d", some "1.0.0"⟩, some ⟨"c", some "1.0.0"⟩, some ⟨"a", some "1.0.0"⟩]]) ∧
    (∃ ids, getPkgNodeIds gDiamond ⟨"d", some "1.0.0"⟩ = .ok ids ∧
      [[some ⟨"d", some "1.0.0"⟩, some ⟨"b", some "1.0.0"⟩, some ⟨"a", some "1.0.0"⟩],
       [some ⟨"d", some "1.0.0"⟩, some ⟨"c", some "1.0.0"⟩, some ⟨"a", some "1.0.0"⟩]] =
        List.insertionSort lenLe (ids.flatMap (specUpwardPaths gDiamond (nodeFuel gDiamond))) ∧
      List.Perm
        [[some ⟨"d", some "1.0.0"⟩, some ⟨"b", some "1.0.0"⟩, some ⟨"a", some "1.0.0"⟩],
         [some ⟨"d", some "1.0.0"⟩, some ⟨"c", some "1.0.0"⟩, some ⟨"a", some "1.0.0"⟩]]
        (ids.flatMap (specUpwardPaths gDiamond (nodeFuel gDiamond))) ∧
      List.Sorted lenLe
        [[some ⟨"d", some "1.0.0"⟩, some ⟨"b", some "1.0.0"⟩, some ⟨"a", some "1.0.0"⟩],
         [some ⟨"d", some "1.0.0"⟩, some ⟨"c", some "1.0.0"⟩, some ⟨"a", some "1.0.0"⟩]]) :=
  ⟨by decide,
   claim_C2_paths_enumeration gDiamond ⟨"d", some "1.0.0"⟩ _ (by decide)⟩

/-- Counterexample to C3 as stated: the implemented `equals` and the variant
that skips the comparison only at the root pair disagree on a concrete pair of
valid (cyclic) graphs. The co-traversal visits the pair (`R` of the left
graph, `Y` of the right graph), which is not the pair of the two roots and
whose packages differ, yet the implemented comparison under
`compareRoot = false` skips it (the left node is a root) and returns `true`,
while the claimed roots-only skip compares it and returns `false`. -/
theorem claim_C3_counterexample :
    equals gSkipA gSkipB false = .ok true ∧
    equalsRootsOnlySkip gSkipA gSkipB false = .ok false ∧
    nodePkgView gSkipA "R" ≠ nodePkgView gSkipB "Y" ∧
    ("R" = gSkipA.rootNodeId ∧ "Y" ≠ gSkipB.rootNodeId) :=
  ⟨by decide, by decide, by decide, by decide, by decide⟩

/-- C3 amended: in `equals` the package/info comparison of a visited pair is
skipped exactly when `compareRoot` is false and at least one node of the pair
is the root of its own graph (not only when the pair is the two roots): the
implemented co-traversal coincides with the variant built from that skip
condition on all inputs. The stated consequence still holds: two graphs with
identical non-root structure and different root package versions compare
equal under `compareRoot = false` (and unequal under `compareRoot = true`). -/
theorem claim_C3_amended :
    (∀ (gA gB : DepGraphImpl) (cr : Bool) (f : Nat) (a b : String) (t : List String),
      nodeEquals gA gB cr f a b t = nodeEqualsEitherSkip gA gB cr f a b t) ∧
    (equals gRootV1 gRootV2 false = .ok true ∧
      equals gRootV1 gRootV2 true = .ok false ∧
      rootPkg? gRootV1 ≠ rootPkg? gRootV2) := by
  constructor
  · intro gA gB cr
    intro f
    induction f with
    | zero => intro a b t; rfl
    | succ f ih =>
      intro a b t
      have hiff : (cr = true ∨ (a ≠ gA.rootNodeId ∧ b ≠ gB.rootNodeId)) ↔
          ¬skipsComparison gA gB cr a b := by
        unfold skipsComparison
        cases cr <;> simp
      simp only [nodeEquals, nodeEqualsEitherSkip, ih]
      by_cases hskip : skipsComparison gA gB cr a b
      · rw [if_pos hskip, if_neg (fun hc => (hiff.mp hc) hskip)]
      · rw [if_neg hskip, if_pos (hiff.mpr hskip)]
  · exact ⟨by decide, by decide, by decide⟩

theorem nodeEquals_succ_pass {gA gB : DepGraphImpl} {cr : Bool} {f : Nat}
    {idA idB : String} {t : List String} {nA nB : Node}
    (hgA : getNode gA idA = .ok nA) (hgB : getNode gB idB = .ok nB)
    (hpass : ¬(cr = true ∨ (idA ≠ gA.rootNodeId ∧ idB ≠ gB.rootNodeId)) ∨
      (nA.pkg = nB.pkg ∧ nA.info = nB.info)) :
    nodeEquals gA gB cr (f + 1) idA idB t =
      match getNodeDeps gA idA with
      | .error e => .error e
      | .ok depNodesA =>
        match getNodeDeps gB idB with
        | .error e => .error e
        | .ok depNodesB =>
          if (depNodesA.map (·.id)).length ≠ (depNodesB.map (·.id)).length then .ok (false, t)
          else nodeEqualsPairs gA gB cr f
            ((List.insertionSort (depIdLe gA) (depNodesA.map (·.id))).zip
              (List.insertionSort (depIdLe gB) (depNodesB.map (·.id)))) t := by
  simp only [nodeEquals, nodeEqualsPairs]
  rcases hpass with hno | ⟨hp, hi⟩
  · rw [if_neg hno]
  · by_cases hC : cr = true ∨ (idA ≠ gA.rootNodeId ∧ idB ≠ gB.rootNodeId)
    · rw [if_pos hC, hgA, hgB]
      simp [hp, hi]
    · rw [if_neg hC]

/-- C4: during the equality co-traversal, at every visited pair of nodes the
two dependency-id lists are first required to have equal length (a mismatch
makes the step return `false` at once, before any sorting); when the lengths
match, each side is sorted independently and stably by the lexical order of
the package id of its dependency (`depIdLe`, the `name@version` string
comparison of the `sortFn` comparator), and the algorithm recurses pairwise
on the zip of the two sorted lists, so the pairing of children is
deterministic. -/
theorem claim_C4_dependency_pairing (gA gB : DepGraphImpl) (cr : Bool) (f : Nat)
    (idA idB : String) (t : List String) (nA nB : Node)
    (depNodesA depNodesB : List Node)
    (hgA : getNode gA idA = .ok nA) (hgB : getNode gB idB = .ok nB)
    (hdA : getNodeDeps gA idA = .ok depNodesA) (hdB : getNodeDeps gB idB = .ok depNodesB)
    (hpass : ¬(cr = true ∨ (idA ≠ gA.rootNodeId ∧ idB ≠ gB.rootNodeId)) ∨
      (nA.pkg = nB.pkg ∧ nA.info = nB.info)) :
    (depNodesA.length ≠ depNodesB.length →
      nodeEquals gA gB cr (f + 1) idA idB t = .ok (false, t)) ∧
    (depNodesA.length = depNodesB.length →
      nodeEquals gA gB cr (f + 1) idA idB t =
        nodeEqualsPairs gA gB cr f
          ((List.insertionSort (depIdLe gA) (depNodesA.map (·.id))).zip
            (List.insertionSort (depIdLe gB) (depNodesB.map (·.id)))) t) := by
  have hstep := @nodeEquals_succ_pass gA gB cr f idA idB t nA nB hgA hgB hpass
  rw [hstep]
  constructor
  · intro hne
    simp [hdA, hdB, hne]
  · intro heq
    simp [hdA, hdB, heq]

/-- Witness for C4 at the diamond graph root, whose two dependencies `b` and
`c` are paired deterministically after the length check and the sorts. -/
theorem claim_C4_witness :
    getNodeDeps gDiamond "R" = .ok [nodeView gDiamond "B", nodeView gDiamond "C"] ∧
    nodeEquals gDiamond gDiamond true 4 "R" "R" [] =
      nodeEqualsPairs gDiamond gDiamond true 3
        ((List.insertionSort (depIdLe gDiamond)
            ([nodeView gDiamond "B", nodeView gDiamond "C"].map (·.id))).zip
          (List.insertionSort (depIdLe gDiamond)
            ([nodeView gDiamond "B", nodeView gDiamond "C"].map (·.id)))) [] :=
  ⟨by decide,
   (claim_C4_dependency_pairing gDiamond gDiamond true 3 "R" "R" []
      (nodeView gDiamond "R") (nodeView gDiamond "R")
      [nodeView gDiamond "B", nodeView gDiamond "C"]
      [nodeView gDiamond "B", nodeView gDiamond "C"]
      (by decide) (by decide) (by decide) (by decide) (.inr ⟨rfl, rfl⟩)).2 rfl⟩

theorem pairKey_mem_pairKeysList {gA gB : DepGraphImpl} {a b : String}
    (ha : a ∈ nodeIds gA) (hb : b ∈ nodeIds gB) :
    pairKey a b ∈ pairKeysList gA gB := by
  unfold pairKeysList
  rw [List.mem_flatMap]
  exact ⟨a, ha, List.mem_map.mpr ⟨b, hb, rfl⟩⟩

theorem pairKeysList_length {gA gB : DepGraphImpl} :
    (pairKeysList gA gB).length = (nodeIds gA).length * (nodeIds gB).length := by
  unfold pairKeysList
  generalize nodeIds gA = L
  induction L with
  | nil => simp
  | cons x xs ih =>
    rw [List.flatMap_cons, List.length_append, ih]
    simp [Nat.succ_mul, Nat.add_comm]

theorem nodeEquals_succ_fail {gA gB : DepGraphImpl} {cr : Bool} {f : Nat}
    {a b : String} {t : List String} {nA nB : Node}
    (hgA : getNode gA a = .ok nA) (hgB : getNode gB b = .ok nB)
    (hC : cr = true ∨ (a ≠ gA.rootNodeId ∧ b ≠ gB.rootNodeId))
    (hne : ¬(nA.pkg = nB.pkg ∧ nA.info = nB.info)) :
    nodeEquals gA gB cr (f + 1) a b t = .ok (false, t) := by
  simp only [nodeEquals]
  rw [if_pos hC, hgA, hgB]
  have hd : (decide (nA.pkg = nB.pkg) && decide (nA.info = nB.info)) = false := by
    rcases not_and_or.mp hne with h | h <;> simp [h]
  simp [hd]

theorem nodeEqualsFold_total {gA gB : DepGraphImpl} {cr : Bool} {f : Nat}
    (IH : ∀ (a b : String) (t : List String),
      a ∈ nodeIds gA → b ∈ nodeIds gB → t.Nodup →
      (∀ k ∈ t, k ∈ pairKeysList gA gB) →
      (pairKeysList gA gB).length + 1 ≤ f + t.length →
      ∃ r ext, nodeEquals gA gB cr f a b t = .ok (r, t ++ ext) ∧
        (t ++ ext).Nodup ∧ (∀ k ∈ t ++ ext, k ∈ pairKeysList gA gB)) :
    ∀ (pairs : List (String × String)) (b0 : Bool) (t : List String),
      (∀ p ∈ pairs, p.1 ∈ nodeIds gA ∧ p.2 ∈ nodeIds gB) →
      t.Nodup → (∀ k ∈ t, k ∈ pairKeysList gA gB) →
      (pairKeysList gA gB).length ≤ f + t.length →
      ∃ r ext,
        pairs.foldlM (fun st p =>
          if st.1 = false then pure st
          else if pairKey p.1 p.2 ∈ st.2 then pure st
          else nodeEquals gA gB cr f p.1 p.2 (st.2 ++ [pairKey p.1 p.2])) (b0, t) =
          .ok (r, t ++ ext) ∧
        (t ++ ext).Nodup ∧ (∀ k ∈ t ++ ext, k ∈ pairKeysList gA gB) := by
  intro pairs
  induction pairs with
  | nil =>
    intro b0 t _ hnd hsub _
    exact ⟨b0, [], by simp [List.foldlM_nil, pure, Except.pure], by simpa using hnd,
      by simpa using hsub⟩
  | cons p ps ih =>
    intro b0 t hcomp hnd hsub hfuel
    have hcomps : ∀ q ∈ ps, q.1 ∈ nodeIds gA ∧ q.2 ∈ nodeIds gB :=
      fun q hq => hcomp q (by simp [hq])
    rw [List.foldlM_cons]
    cases b0
    case false =>
      obtain ⟨r, ext, hfold, hnd2, hsub2⟩ := ih false t hcomps hnd hsub hfuel
      refine ⟨r, ext, ?_, hnd2, hsub2⟩
      simpa [Bind.bind, Except.bind, pure, Except.pure] using hfold
    case true =>
      by_cases hmem : pairKey p.1 p.2 ∈ t
      · obtain ⟨r, ext, hfold, hnd2, hsub2⟩ := ih true t hcomps hnd hsub hfuel
        refine ⟨r, ext, ?_, hnd2, hsub2⟩
        simpa [Bind.bind, Except.bind, pure, Except.pure, hmem] using hfold
      · have hc := hcomp p (by simp)
        have hknew : pairKey p.1 p.2 ∈ pairKeysList gA gB :=
          pairKey_mem_pairKeysList hc.1 hc.2
        have hnd3 : (t ++ [pairKey p.1 p.2]).Nodup := by
          rw [List.nodup_append]
          refine ⟨hnd, List.nodup_singleton _, ?_⟩
          intro x hx hx2
          rw [List.mem_singleton] at hx2
          subst hx2
          exact hmem hx
        have hsub3 : ∀ k ∈ t ++ [pairKey p.1 p.2], k ∈ pairKeysList gA gB := by
          intro k hk
          rcases List.mem_append.mp hk with hk | hk
          · exact hsub k hk
          · rw [List.mem_singleton] at hk
            subst hk
            exact hknew
        have hfuel3 : (pairKeysList gA gB).length + 1 ≤ f + (t ++ [pairKey p.1 p.2]).length := by
          simp only [List.length_append, List.length_singleton]
          omega
        obtain ⟨r1, ext1, hrec, hnd4, hsub4⟩ :=
          IH p.1 p.2 (t ++ [pairKey p.1 p.2]) hc.1 hc.2 hnd3 hsub3 hfuel3
        have hfuel4 : (pairKeysList gA gB).length ≤
            f + ((t ++ [pairKey p.1 p.2]) ++ ext1).length := by
          simp only [List.length_append, List.length_singleton]
          omega
        obtain ⟨r2, ext2, hfold, hnd5, hsub5⟩ :=
          ih r1 ((t ++ [pairKey p.1 p.2]) ++ ext1) hcomps hnd4 hsub4 hfuel4
        refine ⟨r2, ([pairKey p.1 p.2] ++ ext1) ++ ext2, ?_, ?_, ?_⟩
        · have hbind : (if (true, t).1 = false then pure (true, t)
              else if pairKey p.1 p.2 ∈ (true, t).2 then pure (true, t)
              else nodeEquals gA gB cr f p.1 p.2 ((true, t).2 ++ [pairKey p.1 p.2])) =
              (.ok (r1, (t ++ [pairKey p.1 p.2]) ++ ext1) : Except Err (Bool × List String)) := by
            simp [hmem, hrec]
          rw [hbind]
          show Except.bind _ _ = _
          simp only [Except.bind]
          rw [hfold]
          simp [List.append_assoc]
        · simpa [List.append_assoc] using hnd5
        · intro k hk
          refine hsub5 k ?_
          simpa [List.append_assoc] using hk

theorem nodeEquals_total {gA gB : DepGraphImpl} {cr : Bool}
    (hedgesA : ∀ e ∈ gA.edges, e.1 ∈ nodeIds gA ∧ e.2 ∈ nodeIds gA)
    (hedgesB : ∀ e ∈ gB.edges, e.1 ∈ nodeIds gB ∧ e.2 ∈ nodeIds gB) :
    ∀ (f : Nat) (a b : String) (t : List String),
      a ∈ nodeIds gA → b ∈ nodeIds gB → t.Nodup →
      (∀ k ∈ t, k ∈ pairKeysList gA gB) →
      (pairKeysList gA gB).length + 1 ≤ f + t.length →
      ∃ r ext, nodeEquals gA gB cr f a b t = .ok (r, t ++ ext) ∧
        (t ++ ext).Nodup ∧ (∀ k ∈ t ++ ext, k ∈ pairKeysList gA gB) := by
  intro f
  induction f with
  | zero =>
    intro a b t _ _ hnd hsub hfuel
    exfalso
    have := (List.Nodup.subperm hnd hsub).length_le
    omega
  | succ f ih =>
    intro a b t hA hB hnd hsub hfuel
    have hnA := getNode_ok_of_mem hA
    have hnB := getNode_ok_of_mem hB
    have hdA := getNodeDeps_ok_of_valid hedgesA hA
    have hdB := getNodeDeps_ok_of_valid hedgesB hB
    by_cases hpass : ¬(cr = true ∨ (a ≠ gA.rootNodeId ∧ b ≠ gB.rootNodeId)) ∨
        ((nodeView gA a).pkg = (nodeView gB b).pkg ∧ (nodeView gA a).info = (nodeView gB b).info)
    · rw [@nodeEquals_succ_pass gA gB cr f a b t (nodeView gA a) (nodeView gB b) hnA hnB hpass]
      simp only [hdA, hdB]
      have hidsA : (((gA.edges.filter (fun e => e.1 = a)).map (·.2)).map (nodeView gA)).map
          (fun x => x.id) = (gA.edges.filter (fun e => e.1 = a)).map (·.2) := by
        simp [List.map_map, Function.comp, nodeView]
      have hidsB : (((gB.edges.filter (fun e => e.1 = b)).map (·.2)).map (nodeView gB)).map
          (fun x => x.id) = (gB.edges.filter (fun e => e.1 = b)).map (·.2) := by
        simp [List.map_map, Function.comp, nodeView]
      rw [hidsA, hidsB]
      by_cases hlen : ((gA.edges.filter (fun e => e.1 = a)).map (·.2)).length ≠
          ((gB.edges.filter (fun e => e.1 = b)).map (·.2)).length
      · rw [if_pos hlen]
        exact ⟨false, [], by simp, by simpa using hnd, by simpa using hsub⟩
      · rw [if_neg hlen]
        unfold nodeEqualsPairs
        have hcomp : ∀ p ∈ (List.insertionSort (depIdLe gA)
              ((gA.edges.filter (fun e => e.1 = a)).map (·.2))).zip
            (List.insertionSort (depIdLe gB)
              ((gB.edges.filter (fun e => e.1 = b)).map (·.2))),
            p.1 ∈ nodeIds gA ∧ p.2 ∈ nodeIds gB := by
          intro p hp
          obtain ⟨h1, h2⟩ := List.of_mem_zip hp
          constructor
          · exact depIds_subset_nodeIds hedgesA p.1
              ((List.perm_insertionSort (depIdLe gA) _).mem_iff.mp h1)
          · exact depIds_subset_nodeIds hedgesB p.2
              ((List.perm_insertionSort (depIdLe gB) _).mem_iff.mp h2)
        exact nodeEqualsFold_total ih _ true t hcomp hnd hsub (by omega)
    · have hC : cr = true ∨ (a ≠ gA.rootNodeId ∧ b ≠ gB.rootNodeId) :=
        not_not.mp (not_or.mp hpass).1
      have hne : ¬((nodeView gA a).pkg = (nodeView gB b).pkg ∧
          (nodeView gA a).info = (nodeView gB b).info) := (not_or.mp hpass).2
      exact ⟨false, [], by simpa using nodeEquals_succ_fail hnA hnB hC hne,
        by simpa using hnd, by simpa using hsub⟩

/-- C9: on valid instances (cyclic ones included) and for either value of
`compareRoot`, `equals` returns a boolean: its fueled co-traversal completes
within the fuel the wrapper passes and never surfaces an error, so every
structural mismatch is reported as the value `false` rather than as an
exception. -/
theorem claim_C9_equals_never_throws (gA gB : DepGraphImpl) (cr : Bool)
    (hvalA : ValidGraph gA) (hvalB : ValidGraph gB) :
    ∃ b, equals gA gB cr = .ok b := by
  obtain ⟨_, _, _, _, hrootA, hedgesA, _, _, _, _, _⟩ := hvalA
  obtain ⟨_, _, _, _, hrootB, hedgesB, _, _, _, _, _⟩ := hvalB
  have hfuel : (pairKeysList gA gB).length + 1 ≤ equalsFuel gA gB + ([] : List String).length := by
    rw [pairKeysList_length]
    unfold equalsFuel
    simp [nodeIds]
  obtain ⟨r, ext, heq, _, _⟩ :=
    @nodeEquals_total gA gB cr hedgesA hedgesB (equalsFuel gA gB)
      gA.rootNodeId gB.rootNodeId [] hrootA hrootB (List.nodup_nil) (by simp) hfuel
  refine ⟨r, ?_⟩
  unfold equals
  rw [heq]
  rfl

/-- Witness for C9: `equals` of the valid cyclic graph with itself and of the
diamond graph with itself returns a boolean. -/
theorem claim_C9_witness :
    (ValidGraph gCycle ∧ ∃ b, equals gCycle gCycle true = .ok b) ∧
    (ValidGraph gDiamond ∧ ∃ b, equals gDiamond gDiamond false = .ok b) :=
  ⟨⟨by decide, claim_C9_equals_never_throws gCycle gCycle true (by decide) (by decide)⟩,
   ⟨by decide, claim_C9_equals_never_throws gDiamond gDiamond false (by decide) (by decide)⟩⟩

end DepGraphTs
